import Mathlib

/-!
# Verification of `05-objects-tasks.js`

Shallow embedding of the module's three components:

* the `cssSelectorBuilder` singleton (fragment array `arr`, pending
  combinator list `comb`, composite flag `isCombo`, the three counters,
  and the operations `element`, `id`, `class`, `attr`, `pseudoClass`,
  `pseudoElement`, `combine`, `stringify`, `counterReset`, `arrsReset`,
  `errorHandler`);
* the `Rectangle` constructor;
* the `getJSON` / `fromJSON` pair (whose JSON engine is a host built-in,
  modelled from the spec).

JavaScript strings are Lean `String`s; the `null` placeholder entries of
`arr` are modelled by `Option String` with `none` for `null`; a thrown
`Error` is an `Except.error` carrying the optional message and the state
the singleton is left in.
-/

set_option maxRecDepth 8000

namespace Css

/-- State of the shared `cssSelectorBuilder` singleton.  `arr` is the
fragment array (`none` models a `null` placeholder), `comb` the pending
combinator tokens, `isCombo` the composite flag, and the three counters
mirror `elCount`, `idCount` and `psCount`. -/
structure Builder where
  arr : List (Option String)
  comb : List String
  isCombo : Bool
  elCount : Nat
  idCount : Nat
  psCount : Nat
deriving Repr, DecidableEq

/-- The initial (clean) state of the singleton object literal. -/
def initB : Builder := ⟨[], [], false, 0, 0, 0⟩

/-- The `errDoubleElem` message of the source. -/
def errDoubleElem : String :=
  "Element, id and pseudo-element should not occur more then one time inside the selector"

/-- The `errWrongElemOrder` message of the source. -/
def errWrongElemOrder : String :=
  "Selector parts should be arranged in the following order: element, id, class, attribute, pseudo-class, pseudo-element"

/-- `counterReset()`: zeroes `elCount`, `idCount`, `psCount`. -/
def counterReset (b : Builder) : Builder :=
  { b with elCount := 0, idCount := 0, psCount := 0 }

/-- `arrsReset()`: clears `comb` and `arr`. -/
def arrsReset (b : Builder) : Builder :=
  { b with comb := [], arr := [] }

/-- A thrown `Error`: its (optional) message together with the state the
shared singleton is left in after the throw. -/
abbrev BErr := Option String × Builder

/-- `errorHandler(str)`: resets the counters and the two arrays, then
throws `Error(str)`.  Note that `isCombo` is not touched. -/
def errorHandler (msg : String) (b : Builder) : Except BErr Builder :=
  Except.error (some msg, arrsReset (counterReset b))

/-- `this.arr[this.arr.length - 1]` as used in a boolean context:
`undefined` (empty array), `null` (a placeholder) and `""` are falsy;
the result is `some s` exactly when the last entry is a truthy string. -/
def lastElTruthy (arr : List (Option String)) : Option String :=
  match arr.getLast? with
  | some (some s) => if s = "" then none else some s
  | _ => none

/-- Character membership in a list (used to model regex character
classes such as `/^[.#:[ ]/`). -/
def charIn (c : Char) : List Char → Bool
  | [] => false
  | d :: ds => if c = d then true else charIn c ds

/-- Does the string start with one of the given characters?  Models a
`/^[...]/` regex test. -/
def startsIn (cs : List Char) (s : String) : Bool :=
  match s.data with
  | [] => false
  | c :: _ => charIn c cs

/-- Models the `/^::/` regex test of `pseudoClass`. -/
def startsColonColon (s : String) : Bool :=
  match s.data with
  | c :: d :: _ => decide (c = ':' ∧ d = ':')
  | _ => false

/-- `lastEl && f(lastEl)` for the truthy last entry. -/
def lastTest (o : Option String) (f : String → Bool) : Bool :=
  match o with
  | none => false
  | some s => f s

/-- `cssSelectorBuilder.element(value)`.  The first guard models
`lastEl && !lastEl.match(/^[.#:[ ]/)` (duplicate element), the second
`lastEl && !this.elCount && lastEl.match(/^[#[:]/)` (order violation);
otherwise, if the last entry is truthy the call pushes a `null`
placeholder and the value, sets `isCombo` and resets the counters, else
it just pushes the value; finally `elCount += 1`. -/
def element (value : String) (b : Builder) : Except BErr Builder :=
  let lastEl := lastElTruthy b.arr
  if lastTest lastEl (fun s => ! startsIn ['.', '#', ':', '[', ' '] s) = true then
    errorHandler errDoubleElem b
  else if b.elCount = 0 ∧ lastTest lastEl (startsIn ['#', '[', ':']) = true then
    errorHandler errWrongElemOrder b
  else if lastEl.isSome then
    Except.ok { b with arr := b.arr ++ [none, some value]
                       isCombo := true
                       elCount := 1
                       idCount := 0
                       psCount := 0 }
  else
    Except.ok { b with arr := b.arr ++ [some value], elCount := b.elCount + 1 }

/-- `cssSelectorBuilder.id(value)`. -/
def id (value : String) (b : Builder) : Except BErr Builder :=
  if b.idCount ≠ 0 then errorHandler errDoubleElem b
  else if lastTest (lastElTruthy b.arr) (startsIn ['.', '[', ':']) = true then
    errorHandler errWrongElemOrder b
  else Except.ok { b with arr := b.arr ++ [some ("#" ++ value)], idCount := b.idCount + 1 }

/-- `cssSelectorBuilder.class(value)` (`class` is a Lean keyword). -/
def class' (value : String) (b : Builder) : Except BErr Builder :=
  if lastTest (lastElTruthy b.arr) (startsIn ['[', ':']) = true then
    errorHandler errWrongElemOrder b
  else Except.ok { b with arr := b.arr ++ [some ("." ++ value)] }

/-- `cssSelectorBuilder.attr(value)`. -/
def attr (value : String) (b : Builder) : Except BErr Builder :=
  if lastTest (lastElTruthy b.arr) (startsIn [':']) = true then
    errorHandler errWrongElemOrder b
  else Except.ok { b with arr := b.arr ++ [some ("[" ++ value ++ "]")] }

/-- `cssSelectorBuilder.pseudoClass(value)`. -/
def pseudoClass (value : String) (b : Builder) : Except BErr Builder :=
  if lastTest (lastElTruthy b.arr) startsColonColon = true then
    errorHandler errWrongElemOrder b
  else Except.ok { b with arr := b.arr ++ [some (":" ++ value)] }

/-- `cssSelectorBuilder.pseudoElement(value)`. -/
def pseudoElement (value : String) (b : Builder) : Except BErr Builder :=
  if b.psCount ≠ 0 then errorHandler errDoubleElem b
  else Except.ok { b with arr := b.arr ++ [some ("::" ++ value)], psCount := b.psCount + 1 }

/-- `cssSelectorBuilder.combine(selector1, combinator)` — the call sites
pass a third argument `selector2`, which (like `selector1`) the body
never reads; the method only pushes the combinator surrounded by single
spaces onto `comb`. -/
def combine (selector1 : Builder) (combinator : String) (selector2 : Builder)
    (b : Builder) : Builder :=
  { b with comb := b.comb ++ [" " ++ combinator ++ " "] }

/-- The number of `null` placeholders, `this.arr.filter((el) => el === null).length`. -/
def countNulls (arr : List (Option String)) : Nat :=
  (arr.filter (fun o => o.isNone)).length

/-- The `forEach` loop of `stringify`: each token of the list replaces the
leftmost remaining `null` of the array, in order. -/
def fillNulls : List (Option String) → List String → List (Option String)
  | [], _ => []
  | none :: rest, t :: ts => some t :: fillNulls rest ts
  | none :: rest, [] => none :: fillNulls rest []
  | some s :: rest, ts => some s :: fillNulls rest ts

/-- `this.arr.join('')` — JavaScript's `join` renders `null` as the empty
string. -/
def joinArr : List (Option String) → String
  | [] => ""
  | o :: rest => o.getD "" ++ joinArr rest

/-- `cssSelectorBuilder.stringify()`.  In composite mode the pending
combinators must match the placeholder count (else `throw new Error()`
with the state untouched); on success they are filled in reversed order,
the array is joined, and the arrays and counters are reset. -/
def stringify (b : Builder) : Except BErr (String × Builder) :=
  if b.isCombo then
    if b.comb.length = countNulls b.arr then
      Except.ok (joinArr (fillNulls b.arr b.comb.reverse),
        { arr := []
          comb := []
          isCombo := false
          elCount := 0
          idCount := 0
          psCount := 0 })
    else Except.error (none, b)
  else
    Except.ok (joinArr b.arr,
      { arr := []
        comb := []
        isCombo := b.isCombo
        elCount := 0
        idCount := 0
        psCount := 0 })

/-! ## Chains of fragment-adding calls -/

/-- One fragment-adding call with its argument. -/
inductive Frag where
  | elemF (v : String)
  | idF (v : String)
  | clsF (v : String)
  | attrF (v : String)
  | pclsF (v : String)
  | pelemF (v : String)
deriving Repr, DecidableEq

/-- Dispatch one fragment-adding call. -/
def runFrag : Frag → Builder → Except BErr Builder
  | .elemF v, b => element v b
  | .idF v, b => id v b
  | .clsF v, b => class' v b
  | .attrF v, b => attr v b
  | .pclsF v, b => pseudoClass v b
  | .pelemF v, b => pseudoElement v b

/-- Run a sequence of fragment-adding calls; a thrown error aborts the
chain (as a thrown exception does in JavaScript). -/
def runChain : List Frag → Builder → Except BErr Builder
  | [], b => Except.ok b
  | f :: fs, b =>
    match runFrag f b with
    | Except.ok b2 => runChain fs b2
    | Except.error e => Except.error e

/-- The string the formatted fragment contributes to `arr`. -/
def fragStr : Frag → String
  | .elemF v => v
  | .idF v => "#" ++ v
  | .clsF v => "." ++ v
  | .attrF v => "[" ++ v ++ "]"
  | .pclsF v => ":" ++ v
  | .pelemF v => "::" ++ v

/-- Concatenation of the formatted fragments, in call order. -/
def chainStr : List Frag → String
  | [] => ""
  | f :: fs => fragStr f ++ chainStr fs

/-- The `arr` entries a list of fragments contributes. -/
def fragsS (fs : List Frag) : List (Option String) :=
  fs.map (fun f => some (fragStr f))

/-- A simple selector in the valid category ordering of the spec:
at most one element first, then at most one id, any number of classes,
attributes and pseudo-classes, and at most one pseudo-element. -/
structure Simple where
  el : Option String
  sid : Option String
  cls : List String
  attrs : List String
  pcs : List String
  pe : Option String
deriving Repr

/-- Zero-or-one fragment from an optional value. -/
def optFrags (f : String → Frag) : Option String → List Frag
  | none => []
  | some v => [f v]

/-- The calls of a valid chain after the optional leading `element`. -/
def tailFrags (s : Simple) : List Frag :=
  optFrags Frag.idF s.sid ++ s.cls.map Frag.clsF ++ s.attrs.map Frag.attrF ++
    s.pcs.map Frag.pclsF ++ optFrags Frag.pelemF s.pe

/-- All calls of a valid chain, in category order. -/
def toFrags (s : Simple) : List Frag :=
  optFrags Frag.elemF s.el ++ tailFrags s

/-- Value well-formedness matching the spec's implicit tagging of
fragments by their leading character: an element name must not begin
with one of the prefix characters `.#:[` or a space, and a pseudo-class
name must not begin with `:`. -/
def valuesOk (s : Simple) : Bool :=
  (match s.el with
   | none => true
   | some v => ! startsIn ['.', '#', ':', '[', ' '] v) &&
  s.pcs.all (fun v => ! startsIn [':'] v)

/-- Build a chain from the clean state and stringify the result. -/
def buildChain (fs : List Frag) : Except BErr (String × Builder) :=
  match runChain fs initB with
  | Except.ok b => stringify b
  | Except.error e => Except.error e

/-! ## Combined selectors

A caller's nested `combine` expression evaluates its argument chains
left to right on the shared singleton (each argument expression is just
`this`), and then the `combine` call pushes its combinator token. -/

/-- Syntax of a caller's selector expression. -/
inductive Sel where
  | simple (s : Simple)
  | comb (a : Sel) (c : String) (b : Sel)

/-- Evaluate a selector expression on the shared singleton, in the
JavaScript evaluation order. -/
def runSel : Sel → Builder → Except BErr Builder
  | .simple s, b => runChain (toFrags s) b
  | .comb x c y, b =>
    match runSel x b with
    | Except.ok b1 =>
      match runSel y b1 with
      | Except.ok b2 => Except.ok (combine b2 c b2 b2)
      | Except.error e => Except.error e
    | Except.error e => Except.error e

/-- Evaluate a selector expression from the clean state and stringify. -/
def buildSel (sel : Sel) : Except BErr (String × Builder) :=
  match runSel sel initB with
  | Except.ok b => stringify b
  | Except.error e => Except.error e

/-! ## Basic lemmas about the character and truthiness tests -/

theorem charIn_iff (c : Char) (ds : List Char) : charIn c ds = true ↔ c ∈ ds := by
  induction ds with
  | nil => simp [charIn]
  | cons d ds ih =>
    by_cases h : c = d
    · subst h; simp [charIn]
    · simp [charIn, h, ih]

theorem charIn_false_iff (c : Char) (ds : List Char) : charIn c ds = false ↔ c ∉ ds := by
  rw [← Bool.not_eq_true, charIn_iff]

/-- A string whose character list is nonempty is not the empty string. -/
theorem ne_empty_of_data {s : String} {c : Char} {r : List Char}
    (h : s.data = c :: r) : s ≠ "" := by
  intro he
  rw [he] at h
  exact List.noConfusion h

theorem startsIn_of_data {s : String} {c : Char} {r : List Char}
    (h : s.data = c :: r) (cs : List Char) : startsIn cs s = charIn c cs := by
  unfold startsIn
  rw [h]

theorem startsIn_mono {cs ds : List Char} (hsub : ∀ c, c ∈ ds → c ∈ cs)
    {s : String} (h : startsIn cs s = false) : startsIn ds s = false := by
  unfold startsIn at h ⊢
  cases hd : s.data with
  | nil => rfl
  | cons c r =>
    rw [hd] at h
    rw [charIn_false_iff] at h ⊢
    exact fun hc => h (hsub c hc)

theorem startsColonColon_of_startsIn {s : String}
    (h : startsIn [':'] s = false) : startsColonColon s = false := by
  unfold startsIn at h
  unfold startsColonColon
  cases hd : s.data with
  | nil => rfl
  | cons c r =>
    rw [hd] at h
    rw [charIn_false_iff] at h
    simp only [List.mem_singleton] at h
    cases r with
    | nil => rfl
    | cons d r' => simp [h]

theorem lastElTruthy_nil : lastElTruthy [] = none := rfl

theorem lastElTruthy_concat (arr : List (Option String)) {s : String} (h : s ≠ "") :
    lastElTruthy (arr ++ [some s]) = some s := by
  unfold lastElTruthy
  rw [List.getLast?_concat]
  simp [h]

theorem lastElTruthy_concat_general (arr : List (Option String)) (o : Option String) :
    lastElTruthy (arr ++ [o]) = lastElTruthy [o] := by
  unfold lastElTruthy
  rw [List.getLast?_concat]
  rfl

/-- The guard `lastEl && p(lastEl)` is false along the current array. -/
def LastOk (p : String → Bool) (arr : List (Option String)) : Prop :=
  lastTest (lastElTruthy arr) p = false

theorem lastOk_nil (p : String → Bool) : LastOk p [] := rfl

theorem lastOk_concat {p : String → Bool} (arr : List (Option String))
    {s : String} (h : p s = false) : LastOk p (arr ++ [some s]) := by
  unfold LastOk
  by_cases he : s = ""
  · subst he
    rw [lastElTruthy_concat_general]
    rfl
  · rw [lastElTruthy_concat arr he]
    simpa [lastTest] using h

theorem lastOk_mono {p q : String → Bool} (hpq : ∀ s, p s = false → q s = false)
    {arr : List (Option String)} (h : LastOk p arr) : LastOk q arr := by
  unfold LastOk lastTest at h ⊢
  cases hl : lastElTruthy arr with
  | none => rfl
  | some s => rw [hl] at h; exact hpq s h

/-! ## Step lemmas for the six fragment operations -/

theorem element_step_empty (value : String) (b : Builder)
    (h : lastElTruthy b.arr = none) :
    element value b =
      Except.ok { b with arr := b.arr ++ [some value], elCount := b.elCount + 1 } := by
  unfold element
  rw [h]
  simp [lastTest]

theorem element_step_dup (value : String) (b : Builder) {s : String}
    (h : lastElTruthy b.arr = some s)
    (h5 : startsIn ['.', '#', ':', '[', ' '] s = false) :
    element value b =
      Except.error (some errDoubleElem,
        { b with arr := [], comb := [], elCount := 0, idCount := 0, psCount := 0 }) := by
  unfold element
  rw [h]
  simp [lastTest, h5, errorHandler, arrsReset, counterReset]

theorem element_step_order (value : String) (b : Builder) {s : String}
    (h : lastElTruthy b.arr = some s)
    (h5 : startsIn ['.', '#', ':', '[', ' '] s = true)
    (hc : b.elCount = 0)
    (h3 : startsIn ['#', '[', ':'] s = true) :
    element value b =
      Except.error (some errWrongElemOrder,
        { b with arr := [], comb := [], elCount := 0, idCount := 0, psCount := 0 }) := by
  unfold element
  rw [h]
  simp [lastTest, h5, hc, h3, errorHandler, arrsReset, counterReset]

theorem element_step_combo (value : String) (b : Builder) {s : String}
    (h : lastElTruthy b.arr = some s)
    (h5 : startsIn ['.', '#', ':', '[', ' '] s = true)
    (hc : b.elCount ≠ 0) :
    element value b =
      Except.ok { b with arr := b.arr ++ [none, some value]
                         isCombo := true
                         elCount := 1
                         idCount := 0
                         psCount := 0 } := by
  unfold element
  rw [h]
  simp [lastTest, h5, hc]

theorem id_step_ok (value : String) (b : Builder) (hc : b.idCount = 0)
    (h : LastOk (startsIn ['.', '[', ':']) b.arr) :
    id value b =
      Except.ok { b with arr := b.arr ++ [some ("#" ++ value)], idCount := b.idCount + 1 } := by
  unfold id
  unfold LastOk at h
  simp [hc, h]

theorem id_step_dup (value : String) (b : Builder) (hc : b.idCount ≠ 0) :
    id value b =
      Except.error (some errDoubleElem,
        { b with arr := [], comb := [], elCount := 0, idCount := 0, psCount := 0 }) := by
  unfold id
  simp [hc, errorHandler, arrsReset, counterReset]

theorem id_step_order (value : String) (b : Builder) (hc : b.idCount = 0) {s : String}
    (h : lastElTruthy b.arr = some s)
    (h3 : startsIn ['.', '[', ':'] s = true) :
    id value b =
      Except.error (some errWrongElemOrder,
        { b with arr := [], comb := [], elCount := 0, idCount := 0, psCount := 0 }) := by
  unfold id
  rw [h]
  simp [hc, lastTest, h3, errorHandler, arrsReset, counterReset]

theorem class_step_ok (value : String) (b : Builder)
    (h : LastOk (startsIn ['[', ':']) b.arr) :
    class' value b = Except.ok { b with arr := b.arr ++ [some ("." ++ value)] } := by
  unfold class'
  unfold LastOk at h
  simp [h]

theorem class_step_order (value : String) (b : Builder) {s : String}
    (h : lastElTruthy b.arr = some s)
    (h2 : startsIn ['[', ':'] s = true) :
    class' value b =
      Except.error (some errWrongElemOrder,
        { b with arr := [], comb := [], elCount := 0, idCount := 0, psCount := 0 }) := by
  unfold class'
  rw [h]
  simp [lastTest, h2, errorHandler, arrsReset, counterReset]

theorem attr_step_ok (value : String) (b : Builder)
    (h : LastOk (startsIn [':']) b.arr) :
    attr value b = Except.ok { b with arr := b.arr ++ [some ("[" ++ value ++ "]")] } := by
  unfold attr
  unfold LastOk at h
  simp [h]

theorem attr_step_order (value : String) (b : Builder) {s : String}
    (h : lastElTruthy b.arr = some s)
    (h1 : startsIn [':'] s = true) :
    attr value b =
      Except.error (some errWrongElemOrder,
        { b with arr := [], comb := [], elCount := 0, idCount := 0, psCount := 0 }) := by
  unfold attr
  rw [h]
  simp [lastTest, h1, errorHandler, arrsReset, counterReset]

theorem pseudoClass_step_ok (value : String) (b : Builder)
    (h : LastOk startsColonColon b.arr) :
    pseudoClass value b = Except.ok { b with arr := b.arr ++ [some (":" ++ value)] } := by
  unfold pseudoClass
  unfold LastOk at h
  simp [h]

theorem pseudoClass_step_order (value : String) (b : Builder) {s : String}
    (h : lastElTruthy b.arr = some s)
    (h1 : startsColonColon s = true) :
    pseudoClass value b =
      Except.error (some errWrongElemOrder,
        { b with arr := [], comb := [], elCount := 0, idCount := 0, psCount := 0 }) := by
  unfold pseudoClass
  rw [h]
  simp [lastTest, h1, errorHandler, arrsReset, counterReset]

theorem pseudoElement_step_ok (value : String) (b : Builder) (hc : b.psCount = 0) :
    pseudoElement value b =
      Except.ok { b with arr := b.arr ++ [some ("::" ++ value)], psCount := b.psCount + 1 } := by
  unfold pseudoElement
  simp [hc]

theorem pseudoElement_step_dup (value : String) (b : Builder) (hc : b.psCount ≠ 0) :
    pseudoElement value b =
      Except.error (some errDoubleElem,
        { b with arr := [], comb := [], elCount := 0, idCount := 0, psCount := 0 }) := by
  unfold pseudoElement
  simp [hc, errorHandler, arrsReset, counterReset]

/-! ## Head characters of formatted fragments -/

theorem startsIn_hash (v : String) (cs : List Char) :
    startsIn cs ("#" ++ v) = charIn '#' cs := rfl

theorem startsIn_dot (v : String) (cs : List Char) :
    startsIn cs ("." ++ v) = charIn '.' cs := rfl

theorem startsIn_brack (v : String) (cs : List Char) :
    startsIn cs ("[" ++ v ++ "]") = charIn '[' cs := rfl

theorem startsIn_colon (v : String) (cs : List Char) :
    startsIn cs (":" ++ v) = charIn ':' cs := rfl

theorem startsColonColon_colon (v : String) (h : startsIn [':'] v = false) :
    startsColonColon (":" ++ v) = false := by
  unfold startsColonColon
  unfold startsIn at h
  rw [show (":" ++ v).data = ':' :: v.data from rfl]
  cases hv : v.data with
  | nil => rfl
  | cons w r =>
    rw [hv] at h
    rw [charIn_false_iff] at h
    simp only [List.mem_singleton] at h
    simp [h]

theorem startsIn_id_to_cls {s : String}
    (h : startsIn ['.', '[', ':'] s = false) : startsIn ['[', ':'] s = false :=
  startsIn_mono (by intro c hc; simp only [List.mem_cons, List.not_mem_nil, or_false] at hc ⊢; tauto) h

theorem startsIn_cls_to_attr {s : String}
    (h : startsIn ['[', ':'] s = false) : startsIn [':'] s = false :=
  startsIn_mono (by intro c hc; simp only [List.mem_cons, List.not_mem_nil, or_false] at hc ⊢; tauto) h

theorem startsIn_el_to_id {s : String}
    (h : startsIn ['.', '#', ':', '[', ' '] s = false) : startsIn ['.', '[', ':'] s = false :=
  startsIn_mono (by intro c hc; simp only [List.mem_cons, List.not_mem_nil, or_false] at hc ⊢; tauto) h

/-! ## Segment lemmas: running one category's worth of calls -/

/-- Number of fragments contributed by an optional value. -/
def cntO : Option String → Nat
  | none => 0
  | some _ => 1

theorem runChain_append (xs ys : List Frag) (b : Builder) :
    runChain (xs ++ ys) b =
      match runChain xs b with
      | Except.ok b2 => runChain ys b2
      | Except.error e => Except.error e := by
  induction xs generalizing b with
  | nil => rfl
  | cons f fs ih =>
    simp only [List.cons_append, runChain]
    cases h : runFrag f b with
    | ok b2 => simp [ih]
    | error e => rfl

theorem runChain_append_ok {xs : List Frag} {b b2 : Builder}
    (h : runChain xs b = Except.ok b2) (ys : List Frag) :
    runChain (xs ++ ys) b = runChain ys b2 := by
  rw [runChain_append, h]

theorem run_sid (o : Option String) (b : Builder) (hid : b.idCount = 0)
    (h : LastOk (startsIn ['.', '[', ':']) b.arr) :
    runChain (optFrags Frag.idF o) b =
      Except.ok { b with arr := b.arr ++ fragsS (optFrags Frag.idF o)
                         idCount := b.idCount + cntO o } ∧
    LastOk (startsIn ['[', ':']) (b.arr ++ fragsS (optFrags Frag.idF o)) := by
  cases o with
  | none =>
    refine ⟨by simp [optFrags, runChain, fragsS, cntO], ?_⟩
    simpa [optFrags, fragsS] using lastOk_mono (fun s hs => startsIn_id_to_cls hs) h
  | some v =>
    have hstep := id_step_ok v b hid h
    refine ⟨?_, ?_⟩
    · simp [optFrags, runChain, runFrag, hstep, fragsS, fragStr, cntO]
    · simp only [optFrags, fragsS, fragStr, List.map_cons, List.map_nil]
      exact lastOk_concat _ (by rw [startsIn_hash]; rfl)

theorem run_cls (vs : List String) (b : Builder)
    (h : LastOk (startsIn ['[', ':']) b.arr) :
    runChain (vs.map Frag.clsF) b =
      Except.ok { b with arr := b.arr ++ vs.map (fun v => some ("." ++ v)) } ∧
    LastOk (startsIn [':']) (b.arr ++ vs.map (fun v => some ("." ++ v))) := by
  induction vs generalizing b with
  | nil =>
    refine ⟨by simp [runChain], ?_⟩
    simpa using lastOk_mono (fun s hs => startsIn_cls_to_attr hs) h
  | cons v vs ih =>
    have hstep := class_step_ok v b h
    have hnext : LastOk (startsIn ['[', ':']) (b.arr ++ [some ("." ++ v)]) :=
      lastOk_concat _ (by rw [startsIn_dot]; rfl)
    obtain ⟨ih1, ih2⟩ := ih { b with arr := b.arr ++ [some ("." ++ v)] } hnext
    constructor
    · simp only [List.map_cons, runChain, runFrag, hstep]
      rw [ih1]
      simp
    · simpa [List.append_assoc] using ih2

theorem run_attrs (vs : List String) (b : Builder)
    (h : LastOk (startsIn [':']) b.arr) :
    runChain (vs.map Frag.attrF) b =
      Except.ok { b with arr := b.arr ++ vs.map (fun v => some ("[" ++ v ++ "]")) } ∧
    LastOk startsColonColon (b.arr ++ vs.map (fun v => some ("[" ++ v ++ "]"))) := by
  induction vs generalizing b with
  | nil =>
    refine ⟨by simp [runChain], ?_⟩
    simpa using lastOk_mono (fun s hs => startsColonColon_of_startsIn hs) h
  | cons v vs ih =>
    have hstep := attr_step_ok v b h
    have hnext : LastOk (startsIn [':']) (b.arr ++ [some ("[" ++ v ++ "]")]) :=
      lastOk_concat _ (by rw [startsIn_brack]; rfl)
    obtain ⟨ih1, ih2⟩ := ih { b with arr := b.arr ++ [some ("[" ++ v ++ "]")] } hnext
    constructor
    · simp only [List.map_cons, runChain, runFrag, hstep]
      rw [ih1]
      simp
    · simpa [List.append_assoc] using ih2

theorem run_pcls (vs : List String) (b : Builder)
    (hv : ∀ v ∈ vs, startsIn [':'] v = false)
    (h : LastOk startsColonColon b.arr) :
    runChain (vs.map Frag.pclsF) b =
      Except.ok { b with arr := b.arr ++ vs.map (fun v => some (":" ++ v)) } := by
  induction vs generalizing b with
  | nil => simp [runChain]
  | cons v vs ih =>
    have hstep := pseudoClass_step_ok v b h
    have hnext : LastOk startsColonColon (b.arr ++ [some (":" ++ v)]) :=
      lastOk_concat _ (startsColonColon_colon v (hv v (List.mem_cons_self v vs)))
    have ih1 := ih { b with arr := b.arr ++ [some (":" ++ v)] }
      (fun w hw => hv w (List.mem_cons_of_mem v hw)) hnext
    simp only [List.map_cons, runChain, runFrag, hstep]
    rw [ih1]
    simp

theorem run_pelem (o : Option String) (b : Builder) (hps : b.psCount = 0) :
    runChain (optFrags Frag.pelemF o) b =
      Except.ok { b with arr := b.arr ++ fragsS (optFrags Frag.pelemF o)
                         psCount := b.psCount + cntO o } := by
  cases o with
  | none => simp [optFrags, runChain, fragsS, cntO]
  | some v =>
    have hstep := pseudoElement_step_ok v b hps
    simp [optFrags, runChain, runFrag, hstep, fragsS, fragStr, cntO]

theorem fragsS_append (xs ys : List Frag) :
    fragsS (xs ++ ys) = fragsS xs ++ fragsS ys := by
  simp [fragsS]

theorem fragsS_cls (vs : List String) :
    fragsS (vs.map Frag.clsF) = vs.map (fun v => some ("." ++ v)) := by
  unfold fragsS
  rw [List.map_map]
  rfl

theorem fragsS_attr (vs : List String) :
    fragsS (vs.map Frag.attrF) = vs.map (fun v => some ("[" ++ v ++ "]")) := by
  unfold fragsS
  rw [List.map_map]
  rfl

theorem fragsS_pcls (vs : List String) :
    fragsS (vs.map Frag.pclsF) = vs.map (fun v => some (":" ++ v)) := by
  unfold fragsS
  rw [List.map_map]
  rfl

theorem pcs_values_ok {s : Simple} (hv : valuesOk s = true) :
    ∀ v ∈ s.pcs, startsIn [':'] v = false := by
  unfold valuesOk at hv
  rw [Bool.and_eq_true] at hv
  have h2 := hv.2
  rw [List.all_eq_true] at h2
  intro v hvv
  simpa using h2 v hvv

/-- Running everything after the optional leading `element` call. -/
theorem run_tail (s : Simple) (b : Builder) (hv : valuesOk s = true)
    (hid : b.idCount = 0) (hps : b.psCount = 0)
    (h : LastOk (startsIn ['.', '[', ':']) b.arr) :
    runChain (tailFrags s) b =
      Except.ok { b with arr := b.arr ++ fragsS (tailFrags s)
                         idCount := b.idCount + cntO s.sid
                         psCount := b.psCount + cntO s.pe } := by
  have hpcs := pcs_values_ok hv
  obtain ⟨arr0, comb0, ic0, el0, id0, ps0⟩ := b
  have hid' : id0 = 0 := hid
  have hps' : ps0 = 0 := hps
  subst hid' hps'
  obtain ⟨E1, L1⟩ := run_sid s.sid ⟨arr0, comb0, ic0, el0, 0, 0⟩ rfl h
  obtain ⟨E2, L2⟩ := run_cls s.cls
    ⟨arr0 ++ fragsS (optFrags Frag.idF s.sid), comb0, ic0, el0, 0 + cntO s.sid, 0⟩ L1
  obtain ⟨E3, L3⟩ := run_attrs s.attrs
    ⟨(arr0 ++ fragsS (optFrags Frag.idF s.sid)) ++ s.cls.map (fun v => some ("." ++ v)),
      comb0, ic0, el0, 0 + cntO s.sid, 0⟩ L2
  have E4 := run_pcls s.pcs
    ⟨((arr0 ++ fragsS (optFrags Frag.idF s.sid)) ++ s.cls.map (fun v => some ("." ++ v))) ++
        s.attrs.map (fun v => some ("[" ++ v ++ "]")),
      comb0, ic0, el0, 0 + cntO s.sid, 0⟩ hpcs L3
  have E5 := run_pelem s.pe
    ⟨(((arr0 ++ fragsS (optFrags Frag.idF s.sid)) ++ s.cls.map (fun v => some ("." ++ v))) ++
        s.attrs.map (fun v => some ("[" ++ v ++ "]"))) ++ s.pcs.map (fun v => some (":" ++ v)),
      comb0, ic0, el0, 0 + cntO s.sid, 0⟩ rfl
  have C2 := (runChain_append_ok E1 (s.cls.map Frag.clsF)).trans E2
  have C3 := (runChain_append_ok C2 (s.attrs.map Frag.attrF)).trans E3
  have C4 := (runChain_append_ok C3 (s.pcs.map Frag.pclsF)).trans E4
  have C5 := (runChain_append_ok C4 (optFrags Frag.pelemF s.pe)).trans E5
  unfold tailFrags
  rw [C5]
  simp [tailFrags, fragsS_append, fragsS_cls, fragsS_attr, fragsS_pcls, List.append_assoc]
theorem runChain_cons_ok {f : Frag} {b b2 : Builder}
    (h : runFrag f b = Except.ok b2) (fs : List Frag) :
    runChain (f :: fs) b = runChain fs b2 := by
  simp [runChain, h]

theorem el_value_ok {s : Simple} {v : String} (hv : valuesOk s = true) (hel : s.el = some v) :
    startsIn ['.', '#', ':', '[', ' '] v = false := by
  unfold valuesOk at hv
  rw [Bool.and_eq_true] at hv
  have h1 := hv.1
  rw [hel] at h1
  simpa using h1

/-- Running a full valid chain from the clean state. -/
theorem run_simple_init (s : Simple) (hv : valuesOk s = true) :
    runChain (toFrags s) initB =
      Except.ok ⟨fragsS (toFrags s), [], false, cntO s.el, cntO s.sid, cntO s.pe⟩ := by
  unfold toFrags
  cases hel : s.el with
  | none =>
    have E := run_tail s initB hv rfl rfl (lastOk_nil _)
    simp only [optFrags, List.nil_append]
    rw [E]
    simp [fragsS_append, initB, optFrags, fragsS, cntO]
  | some v =>
    have hv5 := el_value_ok hv hel
    have E0 : runFrag (Frag.elemF v) initB =
        Except.ok ⟨[some v], [], false, 1, 0, 0⟩ := by
      have := element_step_empty v initB rfl
      simpa [runFrag, initB] using this
    have hLast : LastOk (startsIn ['.', '[', ':']) [some v] := by
      have := lastOk_concat ([] : List (Option String)) (startsIn_el_to_id hv5)
      simpa using this
    have E := run_tail s ⟨[some v], [], false, 1, 0, 0⟩ hv rfl rfl hLast
    simp only [optFrags, List.singleton_append]
    rw [runChain_cons_ok E0, E]
    simp [fragsS_append, fragsS, fragStr, cntO, optFrags]

/-- Running a full valid chain, starting with an `element` call, onto a
state whose last fragment is truthy and prefixed and whose `elCount` is
nonzero: the `element` call starts a combination. -/
theorem run_simple_onto (s : Simple) (v : String) (b : Builder)
    (hv : valuesOk s = true) (hel : s.el = some v)
    {L : String} (hL : lastElTruthy b.arr = some L)
    (hL5 : startsIn ['.', '#', ':', '[', ' '] L = true)
    (helc : b.elCount ≠ 0) :
    runChain (toFrags s) b =
      Except.ok { b with arr := b.arr ++ (none :: fragsS (toFrags s))
                         isCombo := true
                         elCount := 1
                         idCount := cntO s.sid
                         psCount := cntO s.pe } := by
  obtain ⟨arr0, comb0, ic0, el0, id0, ps0⟩ := b
  have E0 : runFrag (Frag.elemF v) ⟨arr0, comb0, ic0, el0, id0, ps0⟩ =
      Except.ok ⟨arr0 ++ [none, some v], comb0, true, 1, 0, 0⟩ := by
    have := element_step_combo v ⟨arr0, comb0, ic0, el0, id0, ps0⟩ hL hL5 helc
    simpa [runFrag] using this
  have hv5 := el_value_ok hv hel
  have hLast : LastOk (startsIn ['.', '[', ':']) (arr0 ++ [none, some v]) := by
    have := lastOk_concat (arr0 ++ [none]) (startsIn_el_to_id hv5)
    simpa [List.append_assoc] using this
  have E := run_tail s ⟨arr0 ++ [none, some v], comb0, true, 1, 0, 0⟩ hv rfl rfl hLast
  unfold toFrags
  rw [hel]
  simp only [optFrags, List.singleton_append]
  rw [runChain_cons_ok E0, E]
  simp [toFrags, hel, optFrags, fragsS_append, fragsS, fragStr, List.append_assoc]

/-! ## Stringify helpers -/

theorem stringify_simple (b : Builder) (h : b.isCombo = false) :
    stringify b = Except.ok (joinArr b.arr, initB) := by
  unfold stringify
  rw [h]
  simp [initB]

theorem joinArr_append (xs ys : List (Option String)) :
    joinArr (xs ++ ys) = joinArr xs ++ joinArr ys := by
  induction xs with
  | nil => simp [joinArr]
  | cons o rest ih => simp [joinArr, ih, String.append_assoc]

theorem joinArr_fragsS (fs : List Frag) : joinArr (fragsS fs) = chainStr fs := by
  induction fs with
  | nil => rfl
  | cons f fs ih =>
    unfold fragsS at ih
    simp [fragsS, joinArr, chainStr, ih]

/-! ## Null-placeholder bookkeeping for composite stringification -/

theorem countNulls_cons_some (s : String) (xs : List (Option String)) :
    countNulls (some s :: xs) = countNulls xs := by
  simp [countNulls, List.filter_cons]

theorem countNulls_cons_none (xs : List (Option String)) :
    countNulls (none :: xs) = countNulls xs + 1 := by
  simp [countNulls, List.filter_cons]

theorem countNulls_append (xs ys : List (Option String)) :
    countNulls (xs ++ ys) = countNulls xs + countNulls ys := by
  simp [countNulls, List.filter_append]

theorem countNulls_fragsS (fs : List Frag) : countNulls (fragsS fs) = 0 := by
  induction fs with
  | nil => rfl
  | cons f fs ih =>
    unfold fragsS at ih ⊢
    simpa [countNulls_cons_some] using ih

theorem fillNulls_nil_tokens (xs : List (Option String)) : fillNulls xs [] = xs := by
  induction xs with
  | nil => rfl
  | cons o rest ih => cases o <;> simp [fillNulls, ih]

theorem fillNulls_no_null {xs : List (Option String)} (h : countNulls xs = 0)
    (ys : List (Option String)) (ts : List String) :
    fillNulls (xs ++ ys) ts = xs ++ fillNulls ys ts := by
  induction xs with
  | nil => rfl
  | cons o rest ih =>
    cases o with
    | none => rw [countNulls_cons_none] at h; omega
    | some s =>
      rw [countNulls_cons_some] at h
      simp [fillNulls, ih h]

theorem stringify_combo (b : Builder) (h : b.isCombo = true)
    (hc : b.comb.length = countNulls b.arr) :
    stringify b = Except.ok (joinArr (fillNulls b.arr b.comb.reverse), initB) := by
  unfold stringify
  rw [h, hc]
  simp [initB]

/-! ## The last fragment of a chain with a nonempty tail is prefixed -/

theorem frag_in_tail_prefixed {s : Simple} {f : Frag} (hf : f ∈ tailFrags s) :
    startsIn ['.', '#', ':', '[', ' '] (fragStr f) = true ∧ fragStr f ≠ "" := by
  unfold tailFrags at hf
  simp only [List.mem_append] at hf
  rcases hf with ((((h1 | h2) | h3) | h4) | h5)
  · cases ho : s.sid with
    | none => rw [ho] at h1; simp [optFrags] at h1
    | some v =>
      rw [ho] at h1
      simp only [optFrags, List.mem_singleton] at h1
      subst h1
      exact ⟨rfl, ne_empty_of_data (show ("#" ++ v).data = '#' :: v.data from rfl)⟩
  · obtain ⟨v, _, hfv⟩ := List.mem_map.mp h2
    subst hfv
    exact ⟨rfl, ne_empty_of_data (show ("." ++ v).data = '.' :: v.data from rfl)⟩
  · obtain ⟨v, _, hfv⟩ := List.mem_map.mp h3
    subst hfv
    exact ⟨rfl, ne_empty_of_data (show ("[" ++ v ++ "]").data = '[' :: (v.data ++ [']']) from rfl)⟩
  · obtain ⟨v, _, hfv⟩ := List.mem_map.mp h4
    subst hfv
    exact ⟨rfl, ne_empty_of_data (show (":" ++ v).data = ':' :: v.data from rfl)⟩
  · cases ho : s.pe with
    | none => rw [ho] at h5; simp [optFrags] at h5
    | some v =>
      rw [ho] at h5
      simp only [optFrags, List.mem_singleton] at h5
      subst h5
      exact ⟨rfl, ne_empty_of_data (show ("::" ++ v).data = ':' :: (':' :: v.data) from rfl)⟩

theorem last_arr_prefixed (s : Simple) (hne : tailFrags s ≠ [])
    (pre : List (Option String)) :
    ∃ L, lastElTruthy (pre ++ fragsS (toFrags s)) = some L ∧
      startsIn ['.', '#', ':', '[', ' '] L = true := by
  obtain ⟨f, hf⟩ : ∃ f, (tailFrags s).getLast? = some f := by
    cases hg : (tailFrags s).getLast? with
    | some f => exact ⟨f, rfl⟩
    | none => exact absurd (List.getLast?_eq_none_iff.mp hg) hne
  obtain ⟨hpre, hne'⟩ := frag_in_tail_prefixed (List.mem_of_getLast?_eq_some hf)
  refine ⟨fragStr f, ?_, hpre⟩
  have hlast : (pre ++ fragsS (toFrags s)).getLast? = some (some (fragStr f)) := by
    rw [List.getLast?_append]
    unfold toFrags
    rw [fragsS_append, List.getLast?_append]
    unfold fragsS
    rw [List.getLast?_map, hf]
    rfl
  unfold lastElTruthy
  rw [hlast]
  simp [hne']

theorem runSel_comb_ok {x y : Sel} {b bx byy : Builder}
    (hx : runSel x b = Except.ok bx) (hy : runSel y bx = Except.ok byy) (c : String) :
    runSel (Sel.comb x c y) b = Except.ok (combine byy c byy byy) := by
  simp [runSel, hx, hy]

theorem buildChain_ok {fs : List Frag} {b : Builder}
    (h : runChain fs initB = Except.ok b) : buildChain fs = stringify b := by
  unfold buildChain
  rw [h]

theorem buildSel_ok {sel : Sel} {b : Builder}
    (h : runSel sel initB = Except.ok b) : buildSel sel = stringify b := by
  unfold buildSel
  rw [h]

/-! ## Claim theorems for the selector chains -/

/-- C1: for every chain of fragment-adding calls in a valid category
ordering (element?, id?, class*, attr*, pseudoClass*, pseudoElement?)
with well-formed values, `stringify()` returns exactly the concatenation
of the fragments, each formatted with its category prefix, in the order
the calls were made, and leaves the builder in the clean state. -/
theorem stringify_valid_chain (s : Simple) (h : valuesOk s = true) :
    buildChain (toFrags s) = Except.ok (chainStr (toFrags s), initB) := by
  rw [buildChain_ok (run_simple_init s h)]
  rw [stringify_simple _ rfl]
  simp [joinArr_fragsS]

/-- Witness for C1 at the concrete chain
`element('a').id('main').class('x').attr('href').pseudoClass('hover').pseudoElement('after')`. -/
theorem stringify_valid_chain_witness :
    valuesOk ⟨some "a", some "main", ["x"], ["href"], ["hover"], some "after"⟩ = true ∧
    buildChain (toFrags ⟨some "a", some "main", ["x"], ["href"], ["hover"], some "after"⟩) =
      Except.ok
        (chainStr (toFrags ⟨some "a", some "main", ["x"], ["href"], ["hover"], some "after"⟩),
          initB) :=
  ⟨rfl, stringify_valid_chain ⟨some "a", some "main", ["x"], ["href"], ["hover"], some "after"⟩ rfl⟩

/-- C2 counterexample: combining two bare-element sub-selectors does not
produce `"div + p"`; evaluating the second chain's `element('p')` call
throws the duplicate error, because the last fragment `"div"` has no
category prefix. -/
theorem combine_bare_elements_throws :
    buildSel (Sel.comb (Sel.simple ⟨some "div", none, [], [], [], none⟩) "+"
        (Sel.simple ⟨some "p", none, [], [], [], none⟩)) =
      Except.error (some errDoubleElem, ⟨[], [], false, 0, 0, 0⟩) := by rfl

/-- C2 (amended): for sub-selector chains `a` and `b` with well-formed
values, where `a` starts with an `element` call and contains at least one
further fragment and `b` starts with an `element` call,
`combine(a, c, b)` followed by `stringify()` returns `"<a> c <b>"`, the
two stringified sub-selectors joined by the combinator surrounded by
single spaces. -/
theorem combine_stringify (a b : Simple) (c va vb : String)
    (hva : valuesOk a = true) (hvb : valuesOk b = true)
    (hela : a.el = some va) (helb : b.el = some vb)
    (hta : tailFrags a ≠ []) :
    buildSel (Sel.comb (Sel.simple a) c (Sel.simple b)) =
      Except.ok (chainStr (toFrags a) ++ " " ++ c ++ " " ++ chainStr (toFrags b), initB) := by
  have EA : runSel (Sel.simple a) initB =
      Except.ok ⟨fragsS (toFrags a), [], false, cntO a.el, cntO a.sid, cntO a.pe⟩ :=
    run_simple_init a hva
  obtain ⟨L, hL, hL5⟩ := last_arr_prefixed a hta []
  have hLa : lastElTruthy (fragsS (toFrags a)) = some L := by simpa using hL
  have helca : cntO a.el ≠ 0 := by rw [hela]; simp [cntO]
  have EB : runSel (Sel.simple b)
      ⟨fragsS (toFrags a), [], false, cntO a.el, cntO a.sid, cntO a.pe⟩ =
      Except.ok ⟨fragsS (toFrags a) ++ none :: fragsS (toFrags b), [], true, 1,
        cntO b.sid, cntO b.pe⟩ := by
    simpa [runSel] using
      run_simple_onto b vb ⟨fragsS (toFrags a), [], false, cntO a.el, cntO a.sid, cntO a.pe⟩
        hvb helb hLa hL5 helca
  have ES := runSel_comb_ok EA EB c
  rw [buildSel_ok ES]
  have hc : (combine
      ⟨fragsS (toFrags a) ++ none :: fragsS (toFrags b), [], true, 1, cntO b.sid, cntO b.pe⟩ c
      ⟨fragsS (toFrags a) ++ none :: fragsS (toFrags b), [], true, 1, cntO b.sid, cntO b.pe⟩
      ⟨fragsS (toFrags a) ++ none :: fragsS (toFrags b), [], true, 1, cntO b.sid,
        cntO b.pe⟩).comb.length =
      countNulls (combine
      ⟨fragsS (toFrags a) ++ none :: fragsS (toFrags b), [], true, 1, cntO b.sid, cntO b.pe⟩ c
      ⟨fragsS (toFrags a) ++ none :: fragsS (toFrags b), [], true, 1, cntO b.sid, cntO b.pe⟩
      ⟨fragsS (toFrags a) ++ none :: fragsS (toFrags b), [], true, 1, cntO b.sid,
        cntO b.pe⟩).arr := by
    simp [combine, countNulls_append, countNulls_cons_none, countNulls_fragsS]
  rw [stringify_combo _ rfl hc]
  simp [combine, fillNulls_no_null (countNulls_fragsS (toFrags a)), fillNulls,
    fillNulls_nil_tokens, joinArr_append, joinArr, joinArr_fragsS, String.append_assoc]

/-- Witness for C2 (amended) at
`combine(element('div').id('main').class('container'), '+', element('p').class('x'))`. -/
theorem combine_stringify_witness :
    buildSel (Sel.comb (Sel.simple ⟨some "div", some "main", ["container"], [], [], none⟩) "+"
        (Sel.simple ⟨some "p", none, ["x"], [], [], none⟩)) =
      Except.ok (chainStr (toFrags ⟨some "div", some "main", ["container"], [], [], none⟩) ++
        " " ++ "+" ++ " " ++ chainStr (toFrags ⟨some "p", none, ["x"], [], [], none⟩), initB) :=
  combine_stringify ⟨some "div", some "main", ["container"], [], [], none⟩
    ⟨some "p", none, ["x"], [], [], none⟩ "+" "div" "p" rfl rfl rfl rfl (by decide)

/-- C6 counterexample: nesting `combine` over three bare-element chains
does not yield `"a + b ~ c"`; the second chain's `element('b')` call
already throws the duplicate error. -/
theorem nested_combine_bare_elements_throws :
    buildSel (Sel.comb (Sel.simple ⟨some "a", none, [], [], [], none⟩) "+"
        (Sel.comb (Sel.simple ⟨some "b", none, [], [], [], none⟩) "~"
          (Sel.simple ⟨some "c", none, [], [], [], none⟩))) =
      Except.error (some errDoubleElem, ⟨[], [], false, 0, 0, 0⟩) := by rfl

/-- C6 (amended): nested combination resolves innermost-first; for
well-formed chains `X`, `Y`, `Z` that each start with an `element` call,
with `X` and `Y` containing at least one further fragment, combining `X`
with `combine(Y, '~', Z)` via `'+'` and stringifying yields
`"X + Y ~ Z"`: at stringify time the pending combinator tokens are
inserted into the placeholder slots in reverse order of their recording,
and fragments are joined with no additional separator. -/
theorem nested_combine_stringify (X Y Z : Simple) (vx vy vz : String)
    (hvX : valuesOk X = true) (hvY : valuesOk Y = true) (hvZ : valuesOk Z = true)
    (helX : X.el = some vx) (helY : Y.el = some vy) (helZ : Z.el = some vz)
    (htX : tailFrags X ≠ []) (htY : tailFrags Y ≠ []) :
    buildSel (Sel.comb (Sel.simple X) "+" (Sel.comb (Sel.simple Y) "~" (Sel.simple Z))) =
      Except.ok (chainStr (toFrags X) ++ " + " ++ chainStr (toFrags Y) ++ " ~ " ++
        chainStr (toFrags Z), initB) := by
  have EX : runSel (Sel.simple X) initB =
      Except.ok ⟨fragsS (toFrags X), [], false, cntO X.el, cntO X.sid, cntO X.pe⟩ :=
    run_simple_init X hvX
  obtain ⟨L1, hL1, hL15⟩ := last_arr_prefixed X htX []
  have EY : runSel (Sel.simple Y)
      ⟨fragsS (toFrags X), [], false, cntO X.el, cntO X.sid, cntO X.pe⟩ =
      Except.ok ⟨fragsS (toFrags X) ++ none :: fragsS (toFrags Y), [], true, 1,
        cntO Y.sid, cntO Y.pe⟩ := by
    simpa [runSel] using
      run_simple_onto Y vy ⟨fragsS (toFrags X), [], false, cntO X.el, cntO X.sid, cntO X.pe⟩
        hvY helY (by simpa using hL1) hL15 (by rw [helX]; simp [cntO])
  obtain ⟨L2, hL2, hL25⟩ := last_arr_prefixed Y htY (fragsS (toFrags X) ++ [none])
  have hL2' : lastElTruthy (fragsS (toFrags X) ++ none :: fragsS (toFrags Y)) = some L2 := by
    simpa [List.append_assoc] using hL2
  have EZ : runSel (Sel.simple Z)
      ⟨fragsS (toFrags X) ++ none :: fragsS (toFrags Y), [], true, 1, cntO Y.sid, cntO Y.pe⟩ =
      Except.ok ⟨(fragsS (toFrags X) ++ none :: fragsS (toFrags Y)) ++ none :: fragsS (toFrags Z),
        [], true, 1, cntO Z.sid, cntO Z.pe⟩ := by
    simpa [runSel] using
      run_simple_onto Z vz
        ⟨fragsS (toFrags X) ++ none :: fragsS (toFrags Y), [], true, 1, cntO Y.sid, cntO Y.pe⟩
        hvZ helZ hL2' hL25 (by simp)
  have EInner := runSel_comb_ok EY EZ "~"
  have EInner' : runSel (Sel.comb (Sel.simple Y) "~" (Sel.simple Z))
      ⟨fragsS (toFrags X), [], false, cntO X.el, cntO X.sid, cntO X.pe⟩ =
      Except.ok ⟨(fragsS (toFrags X) ++ none :: fragsS (toFrags Y)) ++ none :: fragsS (toFrags Z),
        [" ~ "], true, 1, cntO Z.sid, cntO Z.pe⟩ := by
    simpa [combine] using EInner
  have ES := runSel_comb_ok EX EInner' "+"
  rw [buildSel_ok ES]
  have hc : (combine
      ⟨(fragsS (toFrags X) ++ none :: fragsS (toFrags Y)) ++ none :: fragsS (toFrags Z),
        [" ~ "], true, 1, cntO Z.sid, cntO Z.pe⟩ "+"
      ⟨(fragsS (toFrags X) ++ none :: fragsS (toFrags Y)) ++ none :: fragsS (toFrags Z),
        [" ~ "], true, 1, cntO Z.sid, cntO Z.pe⟩
      ⟨(fragsS (toFrags X) ++ none :: fragsS (toFrags Y)) ++ none :: fragsS (toFrags Z),
        [" ~ "], true, 1, cntO Z.sid, cntO Z.pe⟩).comb.length =
      countNulls (combine
      ⟨(fragsS (toFrags X) ++ none :: fragsS (toFrags Y)) ++ none :: fragsS (toFrags Z),
        [" ~ "], true, 1, cntO Z.sid, cntO Z.pe⟩ "+"
      ⟨(fragsS (toFrags X) ++ none :: fragsS (toFrags Y)) ++ none :: fragsS (toFrags Z),
        [" ~ "], true, 1, cntO Z.sid, cntO Z.pe⟩
      ⟨(fragsS (toFrags X) ++ none :: fragsS (toFrags Y)) ++ none :: fragsS (toFrags Z),
        [" ~ "], true, 1, cntO Z.sid, cntO Z.pe⟩).arr := by
    simp [combine, countNulls_append, countNulls_cons_none, countNulls_fragsS]
  rw [stringify_combo _ rfl hc]
  simp [combine, List.append_assoc, fillNulls_no_null (countNulls_fragsS (toFrags X)),
    fillNulls_no_null (countNulls_fragsS (toFrags Y)), fillNulls, fillNulls_nil_tokens,
    joinArr_append, joinArr, joinArr_fragsS, String.append_assoc]

/-- Witness for C6 (amended) at
`combine(element('div').class('a'), '+', combine(element('table').id('data'), '~', element('tr').pseudoClass('x')))`. -/
theorem nested_combine_stringify_witness :
    buildSel (Sel.comb (Sel.simple ⟨some "div", none, ["a"], [], [], none⟩) "+"
        (Sel.comb (Sel.simple ⟨some "table", some "data", [], [], [], none⟩) "~"
          (Sel.simple ⟨some "tr", none, [], [], ["x"], none⟩))) =
      Except.ok (chainStr (toFrags ⟨some "div", none, ["a"], [], [], none⟩) ++ " + " ++
        chainStr (toFrags ⟨some "table", some "data", [], [], [], none⟩) ++ " ~ " ++
        chainStr (toFrags ⟨some "tr", none, [], [], ["x"], none⟩), initB) :=
  nested_combine_stringify ⟨some "div", none, ["a"], [], [], none⟩
    ⟨some "table", some "data", [], [], [], none⟩ ⟨some "tr", none, [], [], ["x"], none⟩
    "div" "table" "tr" rfl rfl rfl rfl rfl rfl (by decide) (by decide)

theorem startsIn_el3_to_el5 {s : String}
    (h : startsIn ['#', '[', ':'] s = true) :
    startsIn ['.', '#', ':', '[', ' '] s = true := by
  unfold startsIn at h ⊢
  cases hd : s.data with
  | nil => rw [hd] at h; cases h
  | cons c r =>
    rw [hd] at h
    rw [charIn_iff] at h ⊢
    simp only [List.mem_cons, List.not_mem_nil, or_false] at h ⊢
    tauto

/-- Any error raised by a fragment-adding call goes through
`errorHandler`: the state left behind has cleared arrays and counters
(but the composite flag untouched), and the error carries a message. -/
theorem runFrag_error_shape (f : Frag) (b : Builder) (e : Option String) (st : Builder)
    (h : runFrag f b = Except.error (e, st)) :
    st = { b with arr := [], comb := [], elCount := 0, idCount := 0, psCount := 0 } ∧
    e ≠ none := by
  cases f <;>
    simp only [runFrag, element, id, class', attr, pseudoClass, pseudoElement,
      errorHandler, arrsReset, counterReset] at h <;>
    (repeat' split at h) <;>
    simp_all <;>
    (obtain ⟨he, hst⟩ := h
     rw [← he]
     simp)

/-- C3 counterexample: adding a second `element` with a class fragment
in between raises no error at all — the `element('b')` call starts a
combination (placeholder pushed, composite flag set) instead of raising
`DuplicateViolation`. -/
theorem second_element_after_class_no_error :
    runChain [Frag.elemF "a", Frag.clsF "c", Frag.elemF "b"] initB =
      Except.ok ⟨[some "a", some ".c", none, some "b"], [], true, 1, 0, 0⟩ := by rfl

/-- C3 (amended): a second `id` or a second `pseudoElement` always
raises `DuplicateViolation` (the guard tests the counter alone); a
second `element` raises `DuplicateViolation` exactly when the last
fragment is truthy and unprefixed (i.e. immediately after an element
fragment); with prefixed fragments in between, the `element` call does
not raise this error. -/
theorem duplicate_violations (b : Builder) (v w u s : String) :
    (b.idCount ≠ 0 → id v b = Except.error (some errDoubleElem,
      { b with arr := [], comb := [], elCount := 0, idCount := 0, psCount := 0 })) ∧
    (b.psCount ≠ 0 → pseudoElement w b = Except.error (some errDoubleElem,
      { b with arr := [], comb := [], elCount := 0, idCount := 0, psCount := 0 })) ∧
    (lastElTruthy b.arr = some s → startsIn ['.', '#', ':', '[', ' '] s = false →
      element u b = Except.error (some errDoubleElem,
        { b with arr := [], comb := [], elCount := 0, idCount := 0, psCount := 0 })) :=
  ⟨fun h => id_step_dup v b h, fun h => pseudoElement_step_dup w b h,
    fun h1 h2 => element_step_dup u b h1 h2⟩

/-- Witness for C3 (amended) at a state with both counters set and an
unprefixed last fragment. -/
theorem duplicate_violations_witness :
    id "v" ⟨[some "a"], [], false, 1, 1, 1⟩ =
      Except.error (some errDoubleElem, ⟨[], [], false, 0, 0, 0⟩) ∧
    pseudoElement "w" ⟨[some "a"], [], false, 1, 1, 1⟩ =
      Except.error (some errDoubleElem, ⟨[], [], false, 0, 0, 0⟩) ∧
    element "u" ⟨[some "a"], [], false, 1, 1, 1⟩ =
      Except.error (some errDoubleElem, ⟨[], [], false, 0, 0, 0⟩) := by
  obtain ⟨h1, h2, h3⟩ :=
    duplicate_violations ⟨[some "a"], [], false, 1, 1, 1⟩ "v" "w" "u" "a"
  exact ⟨h1 (by decide), h2 (by decide), h3 rfl (by decide)⟩

/-- C4 counterexample: `class('c')` followed by `element('e')` — an
element-category fragment after a class-category fragment, out of the
fixed order — raises no `OrderViolation`; the call starts a combination
instead. -/
theorem element_after_class_no_order_error :
    runChain [Frag.clsF "c", Frag.elemF "e"] initB =
      Except.ok ⟨[some ".c", none, some "e"], [], true, 1, 0, 0⟩ := by rfl

/-- C4 (amended): out-of-order fragment additions raise
`OrderViolation` in these cases: `id` when the last fragment starts with
`.`/`[`/`:` (and no id was counted), `class` when it starts with
`[`/`:`, `attr` when it starts with `:`, `pseudoClass` when it starts
with `::`, and `element` when no element was counted and the last
fragment starts with `#`/`[`/`:`.  An `element` after a class fragment
(or with an element already counted) does not raise. -/
theorem order_violations (b : Builder) (v s : String)
    (hl : lastElTruthy b.arr = some s) :
    (b.idCount = 0 → startsIn ['.', '[', ':'] s = true →
      id v b = Except.error (some errWrongElemOrder,
        { b with arr := [], comb := [], elCount := 0, idCount := 0, psCount := 0 })) ∧
    (startsIn ['[', ':'] s = true →
      class' v b = Except.error (some errWrongElemOrder,
        { b with arr := [], comb := [], elCount := 0, idCount := 0, psCount := 0 })) ∧
    (startsIn [':'] s = true →
      attr v b = Except.error (some errWrongElemOrder,
        { b with arr := [], comb := [], elCount := 0, idCount := 0, psCount := 0 })) ∧
    (startsColonColon s = true →
      pseudoClass v b = Except.error (some errWrongElemOrder,
        { b with arr := [], comb := [], elCount := 0, idCount := 0, psCount := 0 })) ∧
    (b.elCount = 0 → startsIn ['#', '[', ':'] s = true →
      element v b = Except.error (some errWrongElemOrder,
        { b with arr := [], comb := [], elCount := 0, idCount := 0, psCount := 0 })) :=
  ⟨fun hc h3 => id_step_order v b hc hl h3,
    fun h2 => class_step_order v b hl h2,
    fun h1 => attr_step_order v b hl h1,
    fun h1 => pseudoClass_step_order v b hl h1,
    fun hc h3 => element_step_order v b hl (startsIn_el3_to_el5 h3) hc h3⟩

/-- Witness for C4 (amended) at a state whose last fragment is a
pseudo-element fragment `"::x"`, which is out of order for all five
categories. -/
theorem order_violations_witness :
    id "v" ⟨[some "::x"], [], false, 0, 0, 0⟩ =
      Except.error (some errWrongElemOrder, ⟨[], [], false, 0, 0, 0⟩) ∧
    class' "v" ⟨[some "::x"], [], false, 0, 0, 0⟩ =
      Except.error (some errWrongElemOrder, ⟨[], [], false, 0, 0, 0⟩) ∧
    attr "v" ⟨[some "::x"], [], false, 0, 0, 0⟩ =
      Except.error (some errWrongElemOrder, ⟨[], [], false, 0, 0, 0⟩) ∧
    pseudoClass "v" ⟨[some "::x"], [], false, 0, 0, 0⟩ =
      Except.error (some errWrongElemOrder, ⟨[], [], false, 0, 0, 0⟩) ∧
    element "v" ⟨[some "::x"], [], false, 0, 0, 0⟩ =
      Except.error (some errWrongElemOrder, ⟨[], [], false, 0, 0, 0⟩) := by
  obtain ⟨h1, h2, h3, h4, h5⟩ :=
    order_violations ⟨[some "::x"], [], false, 0, 0, 0⟩ "v" "::x" rfl
  exact ⟨h1 rfl (by decide), h2 (by decide), h3 (by decide), h4 (by decide),
    h5 rfl (by decide)⟩

/-- C5 counterexample: the `CompositionError` path of `stringify` (the
bare `throw new Error()` on a combinator/placeholder count mismatch)
resets nothing.  The state below is reachable
(`element('p').class('q').element('r')`), and `stringify` on it throws
while leaving the fragment sequence, composite flag and counters
exactly as they were — not the clean baseline. -/
theorem composition_error_keeps_state :
    runChain [Frag.elemF "p", Frag.clsF "q", Frag.elemF "r"] initB =
      Except.ok ⟨[some "p", some ".q", none, some "r"], [], true, 1, 0, 0⟩ ∧
    stringify ⟨[some "p", some ".q", none, some "r"], [], true, 1, 0, 0⟩ =
      Except.error (none, ⟨[some "p", some ".q", none, some "r"], [], true, 1, 0, 0⟩) ∧
    ([some "p", some ".q", none, some "r"] : List (Option String)) ≠ [] := by
  exact ⟨rfl, rfl, by decide⟩

/-- C5 (amended): `DuplicateViolation` and `OrderViolation` go through
`errorHandler`, which clears the fragment sequence, the pending
combinators and the counters but leaves the composite flag as it was;
the `CompositionError` raised by `stringify` on a combinator/placeholder
count mismatch leaves the entire state unchanged. -/
theorem error_reset_behavior (msg : String) (b : Builder) (f : Frag)
    (e : Option String) (st : Builder) :
    (errorHandler msg b = Except.error (some msg,
      { b with arr := [], comb := [], elCount := 0, idCount := 0, psCount := 0 })) ∧
    (b.isCombo = true → b.comb.length ≠ countNulls b.arr →
      stringify b = Except.error (none, b)) ∧
    (runFrag f b = Except.error (e, st) →
      st = { b with arr := [], comb := [], elCount := 0, idCount := 0, psCount := 0 } ∧
      e ≠ none) := by
  refine ⟨rfl, ?_, fun h => runFrag_error_shape f b e st h⟩
  intro h1 h2
  unfold stringify
  rw [h1]
  simp [h2]

/-- Witness for C5 (amended): a composite-flagged state with set counters
for the `errorHandler` clause, a mismatched composite state for the
`CompositionError` clause, and a duplicate-id error for the
fragment-operation clause. -/
theorem error_reset_behavior_witness :
    (errorHandler errDoubleElem ⟨[some "z"], ["t"], true, 1, 1, 1⟩ =
      Except.error (some errDoubleElem, ⟨[], [], true, 0, 0, 0⟩)) ∧
    (stringify ⟨[some "z", none], [" a ", " b "], true, 1, 0, 0⟩ =
      Except.error (none, ⟨[some "z", none], [" a ", " b "], true, 1, 0, 0⟩)) ∧
    ((⟨[], [], false, 0, 0, 0⟩ : Builder) =
      { (⟨[some "q"], [], false, 0, 1, 0⟩ : Builder) with arr := [], comb := [], elCount := 0, idCount := 0, psCount := 0 } ∧
      (some errDoubleElem ≠ (none : Option String))) := by
  refine ⟨(error_reset_behavior errDoubleElem ⟨[some "z"], ["t"], true, 1, 1, 1⟩
      (Frag.idF "y") none initB).1,
    (error_reset_behavior errDoubleElem ⟨[some "z", none], [" a ", " b "], true, 1, 0, 0⟩
      (Frag.idF "y") none initB).2.1 rfl (by decide),
    (error_reset_behavior errDoubleElem ⟨[some "q"], [], false, 0, 1, 0⟩
      (Frag.idF "y") (some errDoubleElem) ⟨[], [], false, 0, 0, 0⟩).2.2 (by rfl)⟩

/-- C8: the state change performed by
`combine(selector1, combinator, selector2)` depends only on the
combinator argument: it appends exactly the token
`" " ++ combinator ++ " "` to the pending-combinator list and leaves
every other field of the builder state unchanged; the two selector
arguments are never read. -/
theorem combine_frame (s1 s2 t1 t2 b : Builder) (c : String) :
    combine s1 c s2 b = { b with comb := b.comb ++ [" " ++ c ++ " "] } ∧
    combine s1 c s2 b = combine t1 c t2 b ∧
    (combine s1 c s2 b).arr = b.arr ∧
    (combine s1 c s2 b).isCombo = b.isCombo ∧
    (combine s1 c s2 b).elCount = b.elCount ∧
    (combine s1 c s2 b).idCount = b.idCount ∧
    (combine s1 c s2 b).psCount = b.psCount :=
  ⟨rfl, rfl, rfl, rfl, rfl, rfl, rfl⟩

end Css

namespace Js

/-- `function Rectangle(width, height)`: sets `width` and `height` and a
`getArea` closure.  JavaScript numbers are modelled as integers (the
spec's examples are integral). -/
structure Rectangle where
  width : Int
  height : Int

/-- `getArea = () => this.width * this.height`. -/
def Rectangle.getArea (r : Rectangle) : Int := r.width * r.height

/-- C10: for all numbers `w` and `h`, a `Rectangle` constructed from
`(w, h)` exposes `width = w`, `height = h` and `getArea() = w * h`; in
particular `Rectangle(10, 20).getArea()` returns `200`. -/
theorem rectangle_spec :
    (∀ w h : Int, (Rectangle.mk w h).width = w ∧ (Rectangle.mk w h).height = h ∧
      (Rectangle.mk w h).getArea = w * h) ∧
    (Rectangle.mk 10 20).getArea = 200 :=
  ⟨fun w h => ⟨rfl, rfl, rfl⟩, by decide⟩

/-! ## JSON model

`getJSON` and `fromJSON` are one-line wrappers around `JSON.stringify`,
`JSON.parse` and `Object.setPrototypeOf`, which are host built-ins not
present in the repository.  The codec below is modelled from the spec:
standard JSON serialization (arrays in order, objects as ordered field
lists, `"`/`\` escaping in strings, integer numbers) and a parser for
exactly the texts the serializer produces. -/

/-- Kind of a position in a JSON document: a single value, the element
list of a nonempty array, or the field list of a nonempty object. -/
inductive JKind where
  | val
  | arr
  | obj
deriving Repr, DecidableEq

/-- JSON values.  Arrays and objects carry their elements as cons-lists
inside the same indexed inductive so that all recursion over values is
structural.  Numbers are modelled as integers. -/
inductive J : JKind → Type where
  | jnull : J JKind.val
  | jbool (b : Bool) : J JKind.val
  | jnum (n : Int) : J JKind.val
  | jstr (s : String) : J JKind.val
  | jarr (xs : J JKind.arr) : J JKind.val
  | jobj (fs : J JKind.obj) : J JKind.val
  | anil : J JKind.arr
  | acons (hd : J JKind.val) (tl : J JKind.arr) : J JKind.arr
  | onil : J JKind.obj
  | ocons (key : String) (v : J JKind.val) (tl : J JKind.obj) : J JKind.obj

/-- The opening-brace character (written by code point to keep braces
out of character literals). -/
def lbraceC : Char := Char.ofNat 123

/-- The closing-brace character. -/
def rbraceC : Char := Char.ofNat 125

/-- String escaping: `"` and `\` are escaped with a backslash. -/
def escChars : List Char → List Char
  | [] => []
  | c :: rest =>
    if c = '"' ∨ c = '\\' then '\\' :: c :: escChars rest
    else c :: escChars rest

/-- Decimal digits of `m`, most significant first. -/
def natChars (m : Nat) : List Char :=
  if m = 0 then ['0']
  else ((Nat.digits 10 m).map Nat.digitChar).reverse

/-- Decimal rendering of an integer. -/
def numChars (n : Int) : List Char :=
  if n < 0 then '-' :: natChars n.natAbs else natChars n.toNat

/-- The comma separating an array element from a nonempty continuation. -/
def asep : J JKind.arr → List Char
  | J.anil => []
  | J.acons _ _ => [',']

/-- The comma separating an object field from a nonempty continuation. -/
def osep : J JKind.obj → List Char
  | J.onil => []
  | J.ocons _ _ _ => [',']

/-- Modelled from the spec: the characters `JSON.stringify` produces.
On `JKind.arr`/`JKind.obj` the rendering is the comma-separated element
or field list without the surrounding brackets. -/
def jser : {k : JKind} → J k → List Char
  | _, J.jnull => ['n', 'u', 'l', 'l']
  | _, J.jbool true => ['t', 'r', 'u', 'e']
  | _, J.jbool false => ['f', 'a', 'l', 's', 'e']
  | _, J.jnum n => numChars n
  | _, J.jstr s => '"' :: (escChars s.data ++ ['"'])
  | _, J.jarr xs => '[' :: (jser xs ++ [']'])
  | _, J.jobj fs => lbraceC :: (jser fs ++ [rbraceC])
  | _, J.anil => []
  | _, J.acons v tl => jser v ++ (asep tl ++ jser tl)
  | _, J.onil => []
  | _, J.ocons key v tl =>
      '"' :: (escChars key.data ++ '"' :: ':' :: (jser v ++ (osep tl ++ jser tl)))
termination_by structural k x => x

/-- Decimal digit test (`0`–`9`), by code point. -/
def isDigitC (c : Char) : Bool := decide (48 ≤ c.toNat ∧ c.toNat ≤ 57)

/-- Value of a decimal digit character. -/
def digitVal (c : Char) : Nat := c.toNat - 48

/-- Consume a maximal run of digits, accumulating their value. -/
def grabDigits (acc : Nat) : List Char → Nat × List Char
  | [] => (acc, [])
  | c :: r => if isDigitC c then grabDigits (acc * 10 + digitVal c) r else (acc, c :: r)

/-- Parse a natural number (at least one digit). -/
def parseNat : List Char → Option (Nat × List Char)
  | [] => none
  | c :: r => if isDigitC c then some (grabDigits (digitVal c) r) else none

/-- Parse a string body up to the closing quote, undoing the escaping. -/
def parseStrChars : List Char → Option (List Char × List Char)
  | [] => none
  | c :: rest =>
    if c = '"' then some ([], rest)
    else if c = '\\' then
      match rest with
      | [] => none
      | d :: rest2 =>
        match parseStrChars rest2 with
        | some (s, r) => some (d :: s, r)
        | none => none
    else
      match parseStrChars rest with
      | some (s, r) => some (c :: s, r)
      | none => none
termination_by structural x => x

/-- One layer of the recursive-descent parser: `rec` parses the
substructures (it is instantiated with the parser at the next lower
fuel). -/
def parseStep (rec : (k : JKind) → List Char → Option (J k × List Char)) :
    (k : JKind) → List Char → Option (J k × List Char)
  | JKind.val, cs =>
    match cs with
    | [] => none
    | c :: r =>
      if c = 'n' then
        match r with
        | 'u' :: 'l' :: 'l' :: r2 => some (J.jnull, r2)
        | _ => none
      else if c = 't' then
        match r with
        | 'r' :: 'u' :: 'e' :: r2 => some (J.jbool true, r2)
        | _ => none
      else if c = 'f' then
        match r with
        | 'a' :: 'l' :: 's' :: 'e' :: r2 => some (J.jbool false, r2)
        | _ => none
      else if c = '"' then
        match parseStrChars r with
        | some (s, r2) => some (J.jstr (String.mk s), r2)
        | none => none
      else if c = '[' then
        match r with
        | ']' :: r2 => some (J.jarr J.anil, r2)
        | _ =>
          match rec JKind.arr r with
          | some (xs, r2) => some (J.jarr xs, r2)
          | none => none
      else if c = lbraceC then
        match r with
        | [] => none
        | d :: r2 =>
          if d = rbraceC then some (J.jobj J.onil, r2)
          else
            match rec JKind.obj r with
            | some (fs, r3) => some (J.jobj fs, r3)
            | none => none
      else if c = '-' then
        match parseNat r with
        | some (m, r2) => some (J.jnum (-(m : Int)), r2)
        | none => none
      else if isDigitC c then
        match parseNat (c :: r) with
        | some (m, r2) => some (J.jnum (m : Int), r2)
        | none => none
      else none
  | JKind.arr, cs =>
    match rec JKind.val cs with
    | some (v, r) =>
      match r with
      | ',' :: r2 =>
        match rec JKind.arr r2 with
        | some (xs, r3) => some (J.acons v xs, r3)
        | none => none
      | ']' :: r2 => some (J.acons v J.anil, r2)
      | _ => none
    | none => none
  | JKind.obj, cs =>
    match cs with
    | [] => none
    | c :: r =>
      if c = '"' then
        match parseStrChars r with
        | some (ks, r1) =>
          match r1 with
          | ':' :: r2 =>
            match rec JKind.val r2 with
            | some (v, r3) =>
              match r3 with
              | ',' :: r4 =>
                match rec JKind.obj r4 with
                | some (fs, r5) => some (J.ocons (String.mk ks) v fs, r5)
                | none => none
              | d :: r4 =>
                if d = rbraceC then some (J.ocons (String.mk ks) v J.onil, r4) else none
              | [] => none
            | none => none
          | _ => none
        | none => none
      else none

/-- Modelled from the spec: the recursive-descent parser for the
canonical JSON texts of `jser`, with explicit fuel so that it is
structurally recursive. -/
def parseF : Nat → (k : JKind) → List Char → Option (J k × List Char)
  | 0, _, _ => none
  | fuel + 1, k, cs => parseStep (parseF fuel) k cs

theorem parseF_succ (f : Nat) (k : JKind) (cs : List Char) :
    parseF (f + 1) k cs = parseStep (parseF f) k cs := rfl

/-- Modelled from the spec: `JSON.parse` on the canonical texts; the
whole input must be consumed. -/
def jparse (s : String) : Option (J JKind.val) :=
  match parseF (s.data.length + 1) JKind.val s.data with
  | some (v, []) => some v
  | _ => none

/-- `getJSON = (obj) => JSON.stringify(obj)`; the JSON engine is a host
built-in, modelled from the spec's "standard JSON serialization rules". -/
def getJSON (obj : J JKind.val) : String := String.mk (jser obj)

/-- A parsed value with a prototype/shape attached
(`Object.setPrototypeOf(value, proto)`). -/
structure ProtoObj (P : Type) where
  proto : P
  data : J JKind.val

/-- The synchronous parse failure of `fromJSON` (the `SyntaxError`
thrown by `JSON.parse` on malformed input). -/
inductive JsonFailure where
  | parseError
deriving Repr, DecidableEq

/-- `fromJSON = (proto, json) => Object.setPrototypeOf(JSON.parse(json), proto)`;
`JSON.parse` and prototype attachment are host built-ins, modelled from
the spec: parse the text, then attach the given shape's behavior. -/
def fromJSON (P : Type) (proto : P) (json : String) : Except JsonFailure (ProtoObj P) :=
  match jparse json with
  | some v => Except.ok ⟨proto, v⟩
  | none => Except.error JsonFailure.parseError

/-- A JSON text is well-formed (in the modelled, canonical sense) when
the modelled parser accepts it in full. -/
def wellFormedJson (s : String) : Bool := (jparse s).isSome

/-! ## Digits, numbers and strings round-trip -/

/-- The rest of the input after a serialized value never continues with
a digit (it is empty or starts with a bracket, brace, comma or colon). -/
def headNotDigit : List Char → Prop
  | [] => True
  | c :: _ => isDigitC c = false

theorem digitChar_facts : ∀ d : Nat, d < 10 →
    isDigitC (Nat.digitChar d) = true ∧ digitVal (Nat.digitChar d) = d ∧
    Nat.digitChar d ≠ ']' ∧ Nat.digitChar d ≠ 'n' ∧ Nat.digitChar d ≠ 't' ∧
    Nat.digitChar d ≠ 'f' ∧ Nat.digitChar d ≠ '"' ∧ Nat.digitChar d ≠ '[' ∧
    Nat.digitChar d ≠ lbraceC ∧ Nat.digitChar d ≠ '-' := by decide

theorem grabDigits_spec (ds : List Nat) (rest : List Char) (a : Nat)
    (hds : ∀ d ∈ ds, d < 10) (hr : headNotDigit rest) :
    grabDigits a (ds.map Nat.digitChar ++ rest) =
      (ds.foldl (fun x d => x * 10 + d) a, rest) := by
  induction ds generalizing a with
  | nil =>
    cases rest with
    | nil => rfl
    | cons c r =>
      unfold headNotDigit at hr
      simp [grabDigits, hr]
  | cons d ds ih =>
    obtain ⟨h1, h2, -⟩ := digitChar_facts d (hds d (List.mem_cons_self d ds))
    simp only [List.map_cons, List.cons_append, grabDigits, h1, if_pos, h2,
      List.foldl_cons]
    exact ih (a * 10 + d) (fun x hx => hds x (List.mem_cons_of_mem d hx))

theorem parseNat_digits (ds : List Nat) (rest : List Char)
    (hne : ds ≠ []) (hds : ∀ d ∈ ds, d < 10) (hr : headNotDigit rest) :
    parseNat (ds.map Nat.digitChar ++ rest) =
      some (ds.foldl (fun x d => x * 10 + d) 0, rest) := by
  cases ds with
  | nil => exact absurd rfl hne
  | cons d ds =>
    obtain ⟨h1, h2, -⟩ := digitChar_facts d (hds d (List.mem_cons_self d ds))
    simp [parseNat, h1, h2,
      grabDigits_spec ds rest d (fun x hx => hds x (List.mem_cons_of_mem d hx)) hr]

theorem foldl_reverse_ofDigits (L : List Nat) (a : Nat) :
    List.foldl (fun x d => x * 10 + d) a L.reverse =
      a * 10 ^ L.length + Nat.ofDigits 10 L := by
  induction L generalizing a with
  | nil => simp [Nat.ofDigits]
  | cons d L ih =>
    simp only [List.reverse_cons, List.foldl_append, List.foldl_cons, List.foldl_nil,
      ih, Nat.ofDigits_cons, List.length_cons, Nat.cast_id]
    ring

theorem natChars_spec (m : Nat) :
    ∃ d ds, natChars m = Nat.digitChar d :: ds.map Nat.digitChar ∧ d < 10 ∧
      (∀ x ∈ ds, x < 10) ∧
      (d :: ds).foldl (fun x y => x * 10 + y) 0 = m := by
  by_cases h0 : m = 0
  · subst h0
    exact ⟨0, [], rfl, by decide, by simp, rfl⟩
  · have hne : Nat.digits 10 m ≠ [] := Nat.digits_ne_nil_iff_ne_zero.mpr h0
    obtain ⟨d, ds, hds⟩ : ∃ d ds, (Nat.digits 10 m).reverse = d :: ds := by
      cases hL : (Nat.digits 10 m).reverse with
      | nil =>
        rw [List.reverse_eq_nil_iff] at hL
        exact absurd hL hne
      | cons d ds => exact ⟨d, ds, rfl⟩
    refine ⟨d, ds, ?_, ?_, ?_, ?_⟩
    · unfold natChars
      rw [if_neg h0, ← List.map_reverse, hds]
      simp
    · have hmem : d ∈ Nat.digits 10 m := by
        rw [← List.mem_reverse, hds]
        exact List.mem_cons_self d ds
      exact Nat.digits_lt_base (by norm_num) hmem
    · intro x hx
      have hmem : x ∈ Nat.digits 10 m := by
        rw [← List.mem_reverse, hds]
        exact List.mem_cons_of_mem d hx
      exact Nat.digits_lt_base (by norm_num) hmem
    · rw [← hds, foldl_reverse_ofDigits]
      simp [Nat.ofDigits_digits]

theorem parseNat_natChars (m : Nat) (rest : List Char) (hr : headNotDigit rest) :
    parseNat (natChars m ++ rest) = some (m, rest) := by
  obtain ⟨d, ds, hnat, hd, hds, hfold⟩ := natChars_spec m
  rw [hnat, show Nat.digitChar d :: ds.map Nat.digitChar ++ rest =
    (d :: ds).map Nat.digitChar ++ rest from by simp]
  rw [parseNat_digits (d :: ds) rest (by simp)
    (fun x hx => by rcases List.mem_cons.mp hx with h | h
                    · subst h; exact hd
                    · exact hds x h) hr]
  rw [hfold]

theorem parseStrChars_cons (c : Char) (rest : List Char) :
    parseStrChars (c :: rest) =
      if c = '"' then some ([], rest)
      else if c = '\\' then
        match rest with
        | [] => none
        | d :: rest2 =>
          match parseStrChars rest2 with
          | some (s, r) => some (d :: s, r)
          | none => none
      else
        match parseStrChars rest with
        | some (s, r) => some (c :: s, r)
        | none => none := by
  rw [parseStrChars.eq_def]

theorem parseStr_esc (l : List Char) (rest : List Char) :
    parseStrChars (escChars l ++ '"' :: rest) = some (l, rest) := by
  induction l with
  | nil =>
    rw [show escChars [] ++ '"' :: rest = '"' :: rest from rfl, parseStrChars_cons]
    simp
  | cons c r ih =>
    by_cases hc : c = '"' ∨ c = '\\'
    · rw [show escChars (c :: r) = '\\' :: c :: escChars r from by simp [escChars, hc]]
      rw [List.cons_append, List.cons_append, parseStrChars_cons]
      simp [ih]
    · rw [not_or] at hc
      rw [show escChars (c :: r) = c :: escChars r from by simp [escChars, hc.1, hc.2]]
      rw [List.cons_append, parseStrChars_cons]
      simp [hc.1, hc.2, ih]

theorem jser_val_head (v : J JKind.val) : ∃ c cs, jser v = c :: cs ∧ c ≠ ']' := by
  cases v with
  | jnull => exact ⟨'n', _, rfl, by decide⟩
  | jbool b =>
    cases b with
    | false => exact ⟨'f', _, rfl, by decide⟩
    | true => exact ⟨'t', _, rfl, by decide⟩
  | jnum n =>
    rw [show jser (J.jnum n) = numChars n from rfl]
    unfold numChars
    by_cases h : n < 0
    · rw [if_pos h]
      exact ⟨'-', _, rfl, by decide⟩
    · rw [if_neg h]
      obtain ⟨d, ds, hnat, hd, -, -⟩ := natChars_spec n.toNat
      rw [hnat]
      exact ⟨_, _, rfl, (digitChar_facts d hd).2.2.1⟩
  | jstr s => exact ⟨'"', _, rfl, by decide⟩
  | jarr xs => exact ⟨'[', _, rfl, by decide⟩
  | jobj fs => exact ⟨lbraceC, _, rfl, by decide⟩

theorem jser_val_length_pos (v : J JKind.val) : 1 ≤ (jser v).length := by
  obtain ⟨c, cs, h, -⟩ := jser_val_head v
  rw [h]
  simp

/-! ## Parser step lemmas (one per input shape) -/

set_option maxHeartbeats 1000000

theorem parseF_val_null (f : Nat) (r : List Char) :
    parseF (f + 1) JKind.val ('n' :: 'u' :: 'l' :: 'l' :: r) = some (J.jnull, r) := by
  rfl

theorem parseF_val_true (f : Nat) (r : List Char) :
    parseF (f + 1) JKind.val ('t' :: 'r' :: 'u' :: 'e' :: r) = some (J.jbool true, r) := by
  rfl

theorem parseF_val_false (f : Nat) (r : List Char) :
    parseF (f + 1) JKind.val ('f' :: 'a' :: 'l' :: 's' :: 'e' :: r) =
      some (J.jbool false, r) := by
  rfl

theorem parseF_val_quote (f : Nat) (r : List Char) :
    parseF (f + 1) JKind.val ('"' :: r) =
      match parseStrChars r with
      | some (s, r2) => some (J.jstr (String.mk s), r2)
      | none => none := by
  rfl

theorem parseF_val_lbrack (f : Nat) (r : List Char) :
    parseF (f + 1) JKind.val ('[' :: r) =
      match r with
      | ']' :: r2 => some (J.jarr J.anil, r2)
      | _ =>
        match parseF f JKind.arr r with
        | some (xs, r2) => some (J.jarr xs, r2)
        | none => none := by
  rfl

theorem parseF_val_lbrace (f : Nat) (r : List Char) :
    parseF (f + 1) JKind.val (lbraceC :: r) =
      match r with
      | [] => none
      | d :: r2 =>
        if d = rbraceC then some (J.jobj J.onil, r2)
        else
          match parseF f JKind.obj r with
          | some (fs, r3) => some (J.jobj fs, r3)
          | none => none := by
  rfl

theorem parseF_val_dash (f : Nat) (r : List Char) :
    parseF (f + 1) JKind.val ('-' :: r) =
      match parseNat r with
      | some (m, r2) => some (J.jnum (-(m : Int)), r2)
      | none => none := by
  rfl

theorem parseF_val_digit (f : Nat) (c : Char) (r : List Char)
    (h1 : c ≠ 'n') (h2 : c ≠ 't') (h3 : c ≠ 'f') (h4 : c ≠ '"') (h5 : c ≠ '[')
    (h6 : c ≠ lbraceC) (h7 : c ≠ '-') (h8 : isDigitC c = true) :
    parseF (f + 1) JKind.val (c :: r) =
      match parseNat (c :: r) with
      | some (m, r2) => some (J.jnum (m : Int), r2)
      | none => none := by
  rw [parseF_succ]
  simp [parseStep, h1, h2, h3, h4, h5, h6, h7, h8]

theorem parseF_arr_eq (f : Nat) (cs : List Char) :
    parseF (f + 1) JKind.arr cs =
      match parseF f JKind.val cs with
      | some (v, r) =>
        match r with
        | ',' :: r2 =>
          match parseF f JKind.arr r2 with
          | some (xs, r3) => some (J.acons v xs, r3)
          | none => none
        | ']' :: r2 => some (J.acons v J.anil, r2)
        | _ => none
      | none => none := by
  rfl

theorem parseF_obj_quote (f : Nat) (r : List Char) :
    parseF (f + 1) JKind.obj ('"' :: r) =
      match parseStrChars r with
      | some (ks, r1) =>
        match r1 with
        | ':' :: r2 =>
          match parseF f JKind.val r2 with
          | some (v, r3) =>
            match r3 with
            | ',' :: r4 =>
              match parseF f JKind.obj r4 with
              | some (fs, r5) => some (J.ocons (String.mk ks) v fs, r5)
              | none => none
            | d :: r4 =>
              if d = rbraceC then some (J.ocons (String.mk ks) v J.onil, r4) else none
            | [] => none
          | none => none
        | _ => none
      | none => none := by
  rfl

/-! ## Completeness: the parser inverts the serializer -/

/-- The statement proved by mutual induction over the document: a
serialized value parses back (when the rest does not continue with a
digit), and serialized nonempty element/field lists parse back up to
their closing bracket or brace. -/
def ParseGood : (k : JKind) → J k → Prop
  | JKind.val, v => ∀ (fuel : Nat) (rest : List Char), (jser v).length + 1 ≤ fuel →
      headNotDigit rest → parseF fuel JKind.val (jser v ++ rest) = some (v, rest)
  | JKind.arr, xs => ∀ (fuel : Nat) (rest : List Char), (jser xs).length + 2 ≤ fuel →
      xs ≠ J.anil → parseF fuel JKind.arr (jser xs ++ ']' :: rest) = some (xs, rest)
  | JKind.obj, fs => ∀ (fuel : Nat) (rest : List Char), (jser fs).length + 2 ≤ fuel →
      fs ≠ J.onil → parseF fuel JKind.obj (jser fs ++ rbraceC :: rest) = some (fs, rest)

theorem parseF_complete {k : JKind} (x : J k) : ParseGood k x := by
  induction x with
  | jnull =>
    intro fuel rest hf hr
    obtain ⟨f, rfl⟩ : ∃ f, fuel = f + 1 := ⟨fuel - 1, by omega⟩
    rw [show jser J.jnull ++ rest = 'n' :: 'u' :: 'l' :: 'l' :: rest from rfl,
      parseF_val_null]
  | jbool b =>
    intro fuel rest hf hr
    obtain ⟨f, rfl⟩ : ∃ f, fuel = f + 1 := ⟨fuel - 1, by omega⟩
    cases b with
    | true =>
      rw [show jser (J.jbool true) ++ rest = 't' :: 'r' :: 'u' :: 'e' :: rest from rfl,
        parseF_val_true]
    | false =>
      rw [show jser (J.jbool false) ++ rest =
        'f' :: 'a' :: 'l' :: 's' :: 'e' :: rest from rfl, parseF_val_false]
  | jnum n =>
    intro fuel rest hf hr
    obtain ⟨f, rfl⟩ : ∃ f, fuel = f + 1 := ⟨fuel - 1, by omega⟩
    by_cases hneg : n < 0
    · rw [show jser (J.jnum n) ++ rest = '-' :: (natChars n.natAbs ++ rest) from by
        rw [show jser (J.jnum n) = numChars n from rfl]
        unfold numChars
        rw [if_pos hneg]
        rfl]
      rw [parseF_val_dash, parseNat_natChars _ _ hr]
      show some (J.jnum (-((n.natAbs : Nat) : Int)), rest) = some (J.jnum n, rest)
      rw [show -((n.natAbs : Nat) : Int) = n from by omega]
    · obtain ⟨d, ds, hnat, hd, hds, hfold⟩ := natChars_spec n.toNat
      obtain ⟨q1, q2, q3, q4, q5, q6, q7, q8, q9, q10⟩ := digitChar_facts d hd
      rw [show jser (J.jnum n) ++ rest = natChars n.toNat ++ rest from by
        rw [show jser (J.jnum n) = numChars n from rfl]
        unfold numChars
        rw [if_neg hneg]]
      rw [hnat, List.cons_append, parseF_val_digit f _ _ q4 q5 q6 q7 q8 q9 q10 q1]
      rw [show Nat.digitChar d :: (ds.map Nat.digitChar ++ rest) =
        (d :: ds).map Nat.digitChar ++ rest from by simp]
      rw [parseNat_digits _ _ (by simp)
        (fun x hx => by
          rcases List.mem_cons.mp hx with h | h
          · subst h; exact hd
          · exact hds x h) hr]
      rw [hfold]
      show some (J.jnum ((n.toNat : Nat) : Int), rest) = some (J.jnum n, rest)
      rw [show ((n.toNat : Nat) : Int) = n from by omega]
  | jstr s =>
    intro fuel rest hf hr
    obtain ⟨f, rfl⟩ : ∃ f, fuel = f + 1 := ⟨fuel - 1, by omega⟩
    rw [show jser (J.jstr s) ++ rest = '"' :: (escChars s.data ++ '"' :: rest) from by
      rw [show jser (J.jstr s) = '"' :: (escChars s.data ++ ['"']) from rfl]
      simp]
    rw [parseF_val_quote, parseStr_esc]
  | jarr xs ih =>
    intro fuel rest hf hr
    obtain ⟨f, rfl⟩ : ∃ f, fuel = f + 1 := ⟨fuel - 1, by omega⟩
    cases xs with
    | anil =>
      rw [show jser (J.jarr J.anil) ++ rest = '[' :: (']' :: rest) from rfl,
        parseF_val_lbrack]
      rfl
    | acons v t =>
      obtain ⟨c0, cs0, hser0, hc0⟩ := jser_val_head v
      obtain ⟨ds, hds⟩ : ∃ ds, jser (J.acons v t) = c0 :: ds := by
        rw [show jser (J.acons v t) = jser v ++ (asep t ++ jser t) from rfl, hser0]
        exact ⟨_, rfl⟩
      have hlen : (jser (J.jarr (J.acons v t))).length =
          (jser (J.acons v t)).length + 2 := by
        rw [show jser (J.jarr (J.acons v t)) =
          '[' :: (jser (J.acons v t) ++ [']']) from rfl]
        simp
      rw [show jser (J.jarr (J.acons v t)) ++ rest =
          '[' :: (jser (J.acons v t) ++ ']' :: rest) from by
        rw [show jser (J.jarr (J.acons v t)) =
          '[' :: (jser (J.acons v t) ++ [']']) from rfl]
        simp]
      rw [parseF_val_lbrack]
      rw [hds, List.cons_append]
      split
      · rename_i r2 heq
        exact absurd (List.head_eq_of_cons_eq heq) hc0
      · rw [← List.cons_append, ← hds, ih f rest (by omega) (by intro h; cases h)]
  | jobj fs ih =>
    intro fuel rest hf hr
    obtain ⟨f, rfl⟩ : ∃ f, fuel = f + 1 := ⟨fuel - 1, by omega⟩
    cases fs with
    | onil =>
      rw [show jser (J.jobj J.onil) ++ rest = lbraceC :: (rbraceC :: rest) from rfl,
        parseF_val_lbrace]
      simp
    | ocons key v t =>
      have hlen : (jser (J.jobj (J.ocons key v t))).length =
          (jser (J.ocons key v t)).length + 2 := by
        rw [show jser (J.jobj (J.ocons key v t)) =
          lbraceC :: (jser (J.ocons key v t) ++ [rbraceC]) from rfl]
        simp
      rw [show jser (J.jobj (J.ocons key v t)) ++ rest =
          lbraceC :: (jser (J.ocons key v t) ++ rbraceC :: rest) from by
        rw [show jser (J.jobj (J.ocons key v t)) =
          lbraceC :: (jser (J.ocons key v t) ++ [rbraceC]) from rfl]
        simp]
      rw [parseF_val_lbrace]
      rw [show jser (J.ocons key v t) =
        '"' :: (escChars key.data ++ '"' :: ':' :: (jser v ++ (osep t ++ jser t)))
        from rfl]
      rw [List.cons_append]
      have hq : ¬('"' : Char) = rbraceC := by decide
      simp only [hq, if_false]
      rw [← List.cons_append,
        ← show jser (J.ocons key v t) =
          '"' :: (escChars key.data ++ '"' :: ':' :: (jser v ++ (osep t ++ jser t)))
          from rfl]
      rw [ih f rest (by omega) (by intro h; cases h)]
  | anil =>
    intro fuel rest hf hne
    exact absurd rfl hne
  | acons v t ihv iht =>
    intro fuel rest hf hne
    obtain ⟨f, rfl⟩ : ∃ f, fuel = f + 1 := ⟨fuel - 1, by omega⟩
    have hvpos := jser_val_length_pos v
    rw [parseF_arr_eq]
    cases t with
    | anil =>
      have hlen : (jser (J.acons v J.anil)).length = (jser v).length := by
        rw [show jser (J.acons v J.anil) = jser v ++ ([] ++ []) from rfl]
        simp
      rw [show jser (J.acons v J.anil) ++ ']' :: rest = jser v ++ (']' :: rest) from by
        rw [show jser (J.acons v J.anil) = jser v ++ ([] ++ []) from rfl]
        simp]
      rw [ihv f (']' :: rest) (by omega) (by show isDigitC ']' = false; decide)]
      rfl
    | acons w t2 =>
      have hlen : (jser (J.acons v (J.acons w t2))).length =
          (jser v).length + 1 + (jser (J.acons w t2)).length := by
        rw [show jser (J.acons v (J.acons w t2)) =
          jser v ++ ([','] ++ jser (J.acons w t2)) from rfl]
        simp
        omega
      rw [show jser (J.acons v (J.acons w t2)) ++ ']' :: rest =
          jser v ++ (',' :: (jser (J.acons w t2) ++ ']' :: rest)) from by
        rw [show jser (J.acons v (J.acons w t2)) =
          jser v ++ ([','] ++ jser (J.acons w t2)) from rfl]
        simp]
      have hv1 := ihv f (',' :: (jser (J.acons w t2) ++ ']' :: rest)) (by omega)
        (by show isDigitC ',' = false; decide)
      have ht1 := iht f rest (by omega) (by intro h; cases h)
      simp only [hv1, ht1]
  | onil =>
    intro fuel rest hf hne
    exact absurd rfl hne
  | ocons key v t ihv iht =>
    intro fuel rest hf hne
    obtain ⟨f, rfl⟩ : ∃ f, fuel = f + 1 := ⟨fuel - 1, by omega⟩
    have hvpos := jser_val_length_pos v
    have hlen : (jser (J.ocons key v t)).length =
        (escChars key.data).length + 3 + ((jser v).length + (osep t ++ jser t).length) := by
      rw [show jser (J.ocons key v t) =
        '"' :: (escChars key.data ++ '"' :: ':' :: (jser v ++ (osep t ++ jser t)))
        from rfl]
      simp
      omega
    rw [show jser (J.ocons key v t) ++ rbraceC :: rest =
        '"' :: (escChars key.data ++
          '"' :: (':' :: ((jser v ++ (osep t ++ jser t)) ++ rbraceC :: rest))) from by
      rw [show jser (J.ocons key v t) =
        '"' :: (escChars key.data ++ '"' :: ':' :: (jser v ++ (osep t ++ jser t)))
        from rfl]
      simp]
    rw [parseF_obj_quote, parseStr_esc]
    cases t with
    | onil =>
      rw [show (jser v ++ (osep J.onil ++ jser J.onil)) ++ rbraceC :: rest =
          jser v ++ (rbraceC :: rest) from by
        rw [show osep J.onil = [] from rfl, show jser J.onil = [] from rfl]
        simp]
      have hv1 := ihv f (rbraceC :: rest) (by simp at hlen; omega)
        (by show isDigitC rbraceC = false; decide)
      simp only [hv1]
      split
      · rename_i r4 heq
        injection heq with h1 h2
        exact absurd h1 (by decide)
      · rename_i d r4 heq
        injection heq with h1 h2
        subst h1
        subst h2
        simp
      · rename_i heq
        exact List.noConfusion heq
    | ocons k2 w t2 =>
      rw [show (jser v ++ (osep (J.ocons k2 w t2) ++ jser (J.ocons k2 w t2))) ++
          rbraceC :: rest =
          jser v ++ (',' :: (jser (J.ocons k2 w t2) ++ rbraceC :: rest)) from by
        rw [show osep (J.ocons k2 w t2) = [','] from rfl]
        simp]
      have hv1 := ihv f (',' :: (jser (J.ocons k2 w t2) ++ rbraceC :: rest))
        (by simp at hlen; omega) (by show isDigitC ',' = false; decide)
      have ht1 := iht f rest (by simp at hlen; omega) (by intro h; cases h)
      simp only [hv1, ht1]

theorem jparse_getJSON (v : J JKind.val) : jparse (getJSON v) = some v := by
  unfold getJSON jparse
  rw [show (String.mk (jser v)).data = jser v from rfl]
  have h := parseF_complete v ((jser v).length + 1) [] (by omega) trivial
  rw [show jser v ++ ([] : List Char) = jser v from by simp] at h
  rw [h]

/-- C7: for every JSON-serializable value `v` (a value of the modelled
JSON universe) and every shape/prototype `p`, `fromJSON(p, getJSON(v))`
returns a value structurally equal to `v` with `p` attached: a
round-trip through encode then decode-with-shape reproduces the
value. -/
theorem fromJSON_getJSON_roundtrip (P : Type) (p : P) (v : J JKind.val) :
    fromJSON P p (getJSON v) = Except.ok ⟨p, v⟩ := by
  unfold fromJSON
  rw [jparse_getJSON v]

/-- C9: `fromJSON(proto, json)` raises `ParseError` exactly when the
json string is malformed (rejected by the modelled parser), and for
well-formed input it returns a parsed value and never raises; in
particular every serializer output is accepted. -/
theorem fromJSON_parse_error_iff (P : Type) (p : P) (s : String) (v : J JKind.val) :
    (wellFormedJson s = true → ∃ w, fromJSON P p s = Except.ok ⟨p, w⟩) ∧
    (wellFormedJson s = false → fromJSON P p s = Except.error JsonFailure.parseError) ∧
    fromJSON P p (getJSON v) = Except.ok ⟨p, v⟩ := by
  refine ⟨?_, ?_, ?_⟩
  · intro h
    unfold wellFormedJson at h
    obtain ⟨w, hw⟩ := Option.isSome_iff_exists.mp h
    exact ⟨w, by unfold fromJSON; rw [hw]⟩
  · intro h
    unfold wellFormedJson at h
    have hnone : jparse s = none := by
      cases hj : jparse s with
      | none => rfl
      | some w => rw [hj] at h; cases h
    unfold fromJSON
    rw [hnone]
  · unfold fromJSON
    rw [jparse_getJSON v]

/-- Witness for C9: `"null"` is well-formed and decodes; `"nope"` is
malformed and yields `ParseError`. -/
theorem fromJSON_parse_error_iff_witness :
    (∃ w, fromJSON Unit () "null" = Except.ok ⟨(), w⟩) ∧
    fromJSON Unit () "nope" = Except.error JsonFailure.parseError :=
  ⟨(fromJSON_parse_error_iff Unit () "null" J.jnull).1 (by rfl),
    (fromJSON_parse_error_iff Unit () "nope" J.jnull).2.1 (by rfl)⟩

end Js
